import Mathlib

/-!
# Shallow embedding of the Blender hair/fiber subsystem

This file embeds, over exact rationals, the hair subsystem of the repository:

* `blenkernel/intern/hair.c` (src/unnamed/part_001): hair system setters,
  follicle binding (`BKE_hair_bind_follicles`, `hair_fiber_find_closest_strand`,
  `hair_fiber_sort_weights`), curve subdivision (`hair_curve_subdivide`) and the
  export cache (`BKE_hair_export_cache_update` / `..._invalidate` and their
  helpers).
* the point-distribute geometry node and the geometry-set component container
  (src/unnamed/part_000): `scatter_points_from_mesh`,
  `GeometrySet::get_component_for_write`, `make_geometry_set_mutable`.

Modelling conventions:

* C `float` values are embedded as exact rationals `ℚ`; `(int)` casts are
  truncation toward zero (`ctrunc`).
* C arrays are Lean lists, or total functions `ℕ → _` for buffers written by
  index arithmetic; out-of-bounds reads use `getD` defaults (the C code never
  performs them in reachable states) and out-of-bounds writes are embedded as
  `Option` failure where a claim is about them.
* External collaborator services that are not part of this repository's sources
  (the mesh surface-sample evaluator, the k-d tree, and the BLI math primitives
  `closest_on_tri_to_point_v3`, `interp_weights_tri_v3`,
  `line_point_factor_v3`, the random generator) are passed as parameters,
  following the spec's description of them as opaque services.
* Pointers owned by the export cache are `Option` values: `none` is the NULL /
  absent state tested by `hair_export_cache_get_required_updates`.
* Per-vertex tangent/normal buffers involve `normalize_v3` and
  `rotation_between_vecs_to_mat3` (square roots), which lie outside the exact
  rational fragment; no claim concerns their values, so the cache tracks only
  their presence (`Option Unit`).
-/

set_option maxHeartbeats 1000000

/-- A 3-D vector with exact rational coordinates (embedding of `float[3]`). -/
structure Vec3 where
  x : ℚ
  y : ℚ
  z : ℚ
deriving DecidableEq, Repr

/-- `zero_v3`. -/
def Vec3.zero : Vec3 := ⟨0, 0, 0⟩

/-- `add_v3_v3v3`. -/
def Vec3.add (a b : Vec3) : Vec3 := ⟨a.x + b.x, a.y + b.y, a.z + b.z⟩

/-- `sub_v3_v3v3`. -/
def Vec3.sub (a b : Vec3) : Vec3 := ⟨a.x - b.x, a.y - b.y, a.z - b.z⟩

/-- `add_v3_v3v3` followed by `mul_v3_fl(..., 0.5f)`: the midpoint used by the
subdivision passes of `hair_curve_subdivide`. -/
def Vec3.mid (a b : Vec3) : Vec3 := ⟨(a.x + b.x) / 2, (a.y + b.y) / 2, (a.z + b.z) / 2⟩

/-- A mesh surface sample (`MeshSample`): opaque to the hair core, identified
by an abstract id. The surface-sample evaluator maps it to a position. -/
abbrev MeshSample := ℕ

/-- Modelled from the spec: the sentinel "no strand" parent index
(`HAIR_STRAND_INDEX_NONE`, declared in the DNA headers which are not among the
sources). Unused parent slots are marked with it. -/
def HAIR_STRAND_INDEX_NONE : ℕ := 4294967295

/-- `HairFollicle`: a surface sample plus up to 4 (parent index, parent weight)
pairs. -/
structure HairFollicle where
  mesh_sample : MeshSample
  parent_index : Fin 4 → ℕ
  parent_weight : Fin 4 → ℚ

/-- Default follicle used for (unreachable) out-of-bounds list reads. -/
def HairFollicle.zero : HairFollicle := ⟨0, fun _ => 0, fun _ => 0⟩

/-- `HairFiberCurve`: a guide curve record. -/
structure HairFiberCurve where
  mesh_sample : MeshSample
  numverts : ℤ
  vertstart : ℤ
  taper_length : ℚ
  taper_thickness : ℚ
deriving DecidableEq, Repr

/-- Default curve record used for (unreachable) out-of-bounds list reads. -/
def HairFiberCurve.zero : HairFiberCurve := ⟨0, 0, 0, 0, 0⟩

/-- `HairFiberVertex`: flag plus local-space position. -/
structure HairFiberVertex where
  flag : ℤ
  co : Vec3
deriving DecidableEq, Repr

/-- Default vertex used for (unreachable) out-of-bounds list reads. -/
def HairFiberVertex.zero : HairFiberVertex := ⟨0, Vec3.zero⟩

/-- `HairCurveData`: guide curves plus the shared flat vertex array. The C
struct stores `totcurves`/`totverts` counters kept equal to the allocated array
lengths; the embedding uses the list lengths. -/
structure HairCurveData where
  curves : List HairFiberCurve
  verts : List HairFiberVertex

/-- `totcurves`. -/
def HairCurveData.totcurves (d : HairCurveData) : ℕ := d.curves.length

/-- `totverts`. -/
def HairCurveData.totverts (d : HairCurveData) : ℕ := d.verts.length

/-- `HairPattern`: the follicle set. `num_follicles` is kept equal to the
length of the follicle array. -/
structure HairPattern where
  follicles : List HairFollicle

/-- `num_follicles`. -/
def HairPattern.num_follicles (p : HairPattern) : ℕ := p.follicles.length

/-- `HairSystem`. `BKE_hair_new` always allocates the pattern and nothing in
the repository ever clears it, so the embedding stores it directly
(`hsys->pattern` is never NULL). `flag_update_binding` embeds the
`HAIR_SYSTEM_UPDATE_FOLLICLE_BINDING` bit of `hsys->flag`. -/
structure HairSystem where
  pattern : HairPattern
  curve_data : HairCurveData
  flag_update_binding : Bool

/-- `BKE_hair_set_fiber_vertex`: writes `hsys->curve_data.verts[index]`. The C
code writes unconditionally; the embedding returns `none` when the write would
land outside the owned array of `totverts` elements (undefined behavior in C).
The debug assertion in the source checks `index <= hsys->curve_data.totverts`. -/
def BKE_hair_set_fiber_vertex (hsys : HairSystem) (index : ℕ) (flag : ℤ) (co : Vec3) :
    Option HairSystem :=
  if index < hsys.curve_data.verts.length then
    some { hsys with
            curve_data := { hsys.curve_data with
                            verts := hsys.curve_data.verts.set index ⟨flag, co⟩ } }
  else
    none

/-- `BKE_hair_set_fiber_curve`: writes `hsys->curve_data.curves[index]` and
flags the binding for update. The debug assertion in the source checks
`index <= hsys->curve_data.totcurves`. -/
def BKE_hair_set_fiber_curve (hsys : HairSystem) (index : ℕ) (mesh_sample : MeshSample)
    (numverts : ℤ) (taper_length taper_thickness : ℚ) : Option HairSystem :=
  if index < hsys.curve_data.curves.length then
    some { hsys with
            curve_data := { hsys.curve_data with
                            curves := hsys.curve_data.curves.set index
                              ⟨mesh_sample, numverts,
                               (hsys.curve_data.curves.getD index HairFiberCurve.zero).vertstart,
                               taper_length, taper_thickness⟩ },
            flag_update_binding := true }
  else
    none

/-- Concrete hair system with an empty vertex array, used to refute C10 as
stated: the assertion `index <= totverts` accepts `index = 0` although the
owned array has no element. -/
def hsysEmptyVerts : HairSystem :=
  { pattern := { follicles := [] },
    curve_data := { curves := [], verts := [] },
    flag_update_binding := false }

/-- Concrete hair system with one curve and one vertex, for the C10 witness. -/
def hsysOneVert : HairSystem :=
  { pattern := { follicles := [] },
    curve_data := { curves := [HairFiberCurve.zero], verts := [HairFiberVertex.zero] },
    flag_update_binding := false }

/-! ## Point distribution (`scatter_points_from_mesh`, src/unnamed/part_000)

`area_tri_v3`, `BLI_hash_int` and `RandomNumberGenerator` are external
collaborators; the per-triangle area and the first pseudo-random draw of the
stream seeded by the hash of the triangle index are parameters. -/

/-- `fractf(x) = x - floorf(x)`. -/
def fract (q : ℚ) : ℚ := q - ⌊q⌋

/-- A C `(int)` cast of a float value: truncation toward zero. -/
def ctrunc (q : ℚ) : ℤ := if 0 ≤ q then ⌊q⌋ else ⌈q⌉

/-- The number of points `scatter_points_from_mesh` emits from one triangle:
`points_amount_fl = area * density`, plus one extra point exactly when
`fractf(points_amount_fl) > looptri_rng.get_float()`. `draw` is the first
draw of the per-triangle stream seeded by `BLI_hash_int(looptri_index)`. -/
def scatter_tri_point_amount (area density draw : ℚ) : ℤ :=
  ctrunc (area * density) + (if fract (area * density) > draw then 1 else 0)

/-- Total number of points emitted by `scatter_points_from_mesh`: the inner
loop appends `point_amount` points for each triangle (none when the amount is
not positive). `draw i` is the first pseudo-random draw of triangle `i`'s
stream. -/
def scatter_points_from_mesh (areas : List ℚ) (density : ℚ) (draw : ℕ → ℚ) : ℕ :=
  (List.range areas.length).foldl
    (fun acc i => acc + (scatter_tri_point_amount (areas.getD i 0) density (draw i)).toNat) 0

/-! ## Geometry-set components (src/unnamed/part_000, `BKE_geometry_set.cc`)

Reference-counted copy-on-write containers. Components live in a heap indexed
by abstract ids; `fresh` is the next never-used id (all ids stored in a set's
slots are below it). -/

/-- `GeometryComponentType`. -/
inductive GeometryComponentType where
  | Mesh : GeometryComponentType
  | PointCloud : GeometryComponentType
deriving DecidableEq, Repr

/-- A `GeometryComponent`: its atomic user count `users_` and its underlying
geometry data (abstract). `GeometryComponent::copy()` deep-copies the data into
a fresh component. -/
structure GeoComponent where
  users : ℕ
  data : ℕ
deriving DecidableEq, Repr

/-- `GeometryComponent::is_mutable`: "If the item is shared, it is read-only."
Returns `users_ <= 1`. -/
def GeoComponent.is_mutable (c : GeoComponent) : Bool := c.users ≤ 1

/-- A `GeometrySet`: its own user count plus the `components_` map from
component type to component pointer (an id into the heap, or absent). -/
structure GeometrySet where
  users : ℕ
  mesh_slot : Option ℕ
  pointcloud_slot : Option ℕ
deriving DecidableEq, Repr

/-- `GeometrySet::is_mutable`: returns `users_ <= 1`. -/
def GeometrySet.is_mutable (s : GeometrySet) : Bool := s.users ≤ 1

/-- `components_.lookup`. -/
def GeometrySet.slot (s : GeometrySet) : GeometryComponentType → Option ℕ
  | GeometryComponentType.Mesh => s.mesh_slot
  | GeometryComponentType.PointCloud => s.pointcloud_slot

/-- Store into `components_`. -/
def GeometrySet.setSlot (s : GeometrySet) : GeometryComponentType → Option ℕ → GeometrySet
  | GeometryComponentType.Mesh, v => { s with mesh_slot := v }
  | GeometryComponentType.PointCloud, v => { s with pointcloud_slot := v }

/-- The state a `GeometrySetPtr` plus its components reference: the pointed-to
set, the component heap, and the next fresh heap id. -/
structure GeoState where
  set : GeometrySet
  heap : ℕ → GeoComponent
  fresh : ℕ

/-- `GeometrySet::get_component_for_write` (requires the set itself to be
mutable, asserted in the source). If the slot is empty, a new component is
created (user count 1). If the referenced component is mutable (`users_ <= 1`)
it is returned directly; otherwise — the component is shared — a copy is made,
the slot is repointed at the copy (releasing one user of the original), and the
copy (unshared, hence mutable) is returned. Returns the id of the resulting
component together with the new state. -/
def get_component_for_write (st : GeoState) (t : GeometryComponentType) : ℕ × GeoState :=
  match st.set.slot t with
  | none =>
      (st.fresh,
       { set := st.set.setSlot t (some st.fresh),
         heap := Function.update st.heap st.fresh ⟨1, 0⟩,
         fresh := st.fresh + 1 })
  | some cid =>
      if (st.heap cid).users ≤ 1 then
        (cid, st)
      else
        (st.fresh,
         { set := st.set.setSlot t (some st.fresh),
           heap := Function.update
             (Function.update st.heap cid ⟨(st.heap cid).users - 1, (st.heap cid).data⟩)
             st.fresh ⟨1, (st.heap cid).data⟩,
           fresh := st.fresh + 1 })

/-- Bump the user count of the component an (optional) slot references: the
`GeometrySet` copy constructor shares `components_` with the original, adding a
user to each referenced component. -/
def bumpSlot (heap : ℕ → GeoComponent) : Option ℕ → (ℕ → GeoComponent)
  | none => heap
  | some cid => Function.update heap cid ⟨(heap cid).users + 1, (heap cid).data⟩

/-- `make_geometry_set_mutable` for a non-null pointer: if the pointed-to set
is mutable already, do nothing; otherwise make a shallow copy (sharing and
re-referencing the components), release one user of the shared original, and
point at the copy (user count 1). -/
def make_geometry_set_mutable (st : GeoState) : GeoState :=
  if st.set.users ≤ 1 then st
  else
    { set := { users := 1, mesh_slot := st.set.mesh_slot,
               pointcloud_slot := st.set.pointcloud_slot },
      heap := bumpSlot (bumpSlot st.heap st.set.mesh_slot) st.set.pointcloud_slot,
      fresh := st.fresh }

/-- Concrete state for the C9 witness: one shared mesh component (2 users). -/
def geoStateShared : GeoState :=
  { set := { users := 1, mesh_slot := some 0, pointcloud_slot := none },
    heap := fun _ => ⟨2, 7⟩,
    fresh := 1 }

/-! ## Follicle binding (src/unnamed/part_001)

`BLI_kdtree`, `BKE_mesh_sample_eval` and the BLI math primitives are external
collaborators (spec §6); they are fields of `BindEnv`. -/

/-- `CLAMP(x, 0.0f, 1.0f)` on one value. -/
def clamp01 (q : ℚ) : ℚ := if q < 0 then 0 else if q > 1 then 1 else q

/-- `FIBERSWAP`: exchange two of the 4 parent slots. -/
def swapAt {α : Type} (f : Fin 4 → α) (a b : Fin 4) : Fin 4 → α :=
  fun j => if j = a then f b else if j = b then f a else f j

/-- The inner loop of `hair_fiber_sort_weights`: scan the candidate slots,
keeping the slot of the largest weight seen so far (the C code's `maxw` always
equals `w[maxi]`). -/
def findMaxi (w : Fin 4 → ℚ) : Fin 4 → List (Fin 4) → Fin 4
  | m, [] => m
  | m, i :: rest => if w i > w m then findMaxi w i rest else findMaxi w m rest

/-- One outer iteration of `hair_fiber_sort_weights`: find the largest weight
among slot `k` and the candidate slots after it and, unless it is already at
`k`, swap it into slot `k` (index and weight arrays together). -/
def selPass (s : (Fin 4 → ℕ) × (Fin 4 → ℚ)) (k : Fin 4) (cands : List (Fin 4)) :
    (Fin 4 → ℕ) × (Fin 4 → ℚ) :=
  let m := findMaxi s.2 k cands
  if m = k then s else (swapAt s.1 k m, swapAt s.2 k m)

/-- `hair_fiber_sort_weights`: selection sort, descending by weight, over the 4
parent slots, moving the (index, weight) pairs together; the outer loop runs
`k = 0, 1, 2`. -/
def hair_fiber_sort_weights (s : (Fin 4 → ℕ) × (Fin 4 → ℚ)) : (Fin 4 → ℕ) × (Fin 4 → ℚ) :=
  selPass (selPass (selPass s 0 [1, 2, 3]) 1 [2, 3]) 2 [3]

/-- The external collaborators consumed by follicle binding: the surface-sample
evaluator (`BKE_mesh_sample_eval`, `none` on failure), the k-d tree 3-nearest
query (`BLI_kdtree_find_nearest_n` over the strand root positions),
`closest_on_tri_to_point_v3`, `interp_weights_tri_v3` and
`line_point_factor_v3`. -/
structure BindEnv where
  evalSample : MeshSample → Option Vec3
  nearest : Vec3 → List ℕ
  closestTri : Vec3 → Vec3 → Vec3 → Vec3 → Vec3
  baryWeights : Vec3 → Vec3 → Vec3 → Vec3 → ℚ × ℚ × ℚ
  lineFactor : Vec3 → Vec3 → Vec3 → ℚ

/-- Strand root locations: each guide curve's sample evaluated on the scalp,
zeroed on evaluation failure (`zero_v3(strandloc[i])`). -/
def strand_locations (env : BindEnv) (hsys : HairSystem) : List Vec3 :=
  hsys.curve_data.curves.map fun c => (env.evalSample c.mesh_sample).getD Vec3.zero

/-- Parent indices before sorting: slots below `found` receive the k-d tree
results, the remaining slots the sentinel. -/
def pre_parent_index (ns : List ℕ) : Fin 4 → ℕ :=
  fun k => if (k : ℕ) < ns.length then ns.getD (k : ℕ) 0 else HAIR_STRAND_INDEX_NONE

/-- Parent weights before sorting, by the number of strands found: 3 found —
barycentric weights of the closest point on the triangle of the three roots,
clamped to [0,1] (`CLAMP3`); 2 found — the line factor `t` and `1 - t`,
clamped (`CLAMP2`); 1 found — weight 1 on slot 0; slots at or beyond `found`
were zeroed by the fill loop. -/
def pre_parent_weight (env : BindEnv) (sloc : ℕ → Vec3) (loc : Vec3) (found : ℕ) :
    Fin 4 → ℚ :=
  if found = 3 then
    let wr := env.baryWeights (sloc 0) (sloc 1) (sloc 2)
      (env.closestTri loc (sloc 0) (sloc 1) (sloc 2))
    fun k => if k = 0 then clamp01 wr.1 else if k = 1 then clamp01 wr.2.1
      else if k = 2 then clamp01 wr.2.2 else 0
  else if found = 2 then
    let t := env.lineFactor loc (sloc 0) (sloc 1)
    fun k => if k = 0 then clamp01 (1 - t) else if k = 1 then clamp01 t else 0
  else if found = 1 then
    fun k => if k = 0 then 1 else 0
  else
    fun _ => 0

/-- `hair_fiber_find_closest_strand`: query the (at most) 3 nearest strands,
fill the parent slots, compute the interpolation weights and sort them. -/
def hair_fiber_find_closest_strand (env : BindEnv) (strandloc : List Vec3)
    (f : HairFollicle) (loc : Vec3) : HairFollicle :=
  let ns := (env.nearest loc).take 3
  let sloc : ℕ → Vec3 := fun k => strandloc.getD (ns.getD k 0) Vec3.zero
  let p := hair_fiber_sort_weights
    (pre_parent_index ns, pre_parent_weight env sloc loc ns.length)
  { f with parent_index := p.1, parent_weight := p.2 }

/-- `BKE_hair_bind_follicles`: a no-op returning true when the binding-update
flag is clear; with zero guide strands, clears every follicle's slots to the
sentinel and returns false; otherwise binds each follicle whose surface sample
evaluates (follicles with failing samples are left untouched) and returns
true. -/
def BKE_hair_bind_follicles (env : BindEnv) (hsys : HairSystem) : HairSystem × Bool :=
  if hsys.flag_update_binding = false then (hsys, true)
  else if hsys.curve_data.curves.length = 0 then
    ({ hsys with
        pattern := { follicles := hsys.pattern.follicles.map fun f =>
          { f with parent_index := fun _ => HAIR_STRAND_INDEX_NONE,
                   parent_weight := fun _ => 0 } },
        flag_update_binding := false }, false)
  else
    ({ hsys with
        pattern := { follicles := hsys.pattern.follicles.map fun f =>
          match env.evalSample f.mesh_sample with
          | some loc => hair_fiber_find_closest_strand env (strand_locations env hsys) f loc
          | none => f },
        flag_update_binding := false }, true)

/-- The property of `interp_weights_tri_v3` applied to the output of
`closest_on_tri_to_point_v3` that the spec guarantees: the closest point lies
on the triangle, so its barycentric weights are convex coefficients. -/
def convexBary (r : ℚ × ℚ × ℚ) : Prop :=
  0 ≤ r.1 ∧ 0 ≤ r.2.1 ∧ 0 ≤ r.2.2 ∧ r.1 + r.2.1 + r.2.2 = 1

/-- A stale follicle whose parent slots are not cleared (all weights 1). -/
def follicleStale : HairFollicle := ⟨0, fun _ => 0, fun _ => 1⟩

/-- Hair system with zero guide strands whose binding-update flag is clear:
`BKE_hair_bind_follicles` is a no-op on it. -/
def hsysStaleNoCurves : HairSystem :=
  { pattern := { follicles := [follicleStale] },
    curve_data := { curves := [], verts := [] },
    flag_update_binding := false }

/-- Hair system with zero guide strands and the binding-update flag set. -/
def hsysFlaggedNoCurves : HairSystem :=
  { pattern := { follicles := [follicleStale] },
    curve_data := { curves := [], verts := [] },
    flag_update_binding := true }

/-- Trivial external collaborators. -/
def envTrivial : BindEnv :=
  { evalSample := fun _ => some Vec3.zero,
    nearest := fun _ => [],
    closestTri := fun _ _ _ _ => Vec3.zero,
    baryWeights := fun _ _ _ _ => (1, 0, 0),
    lineFactor := fun _ _ _ => 0 }

/-- One guide curve system with one follicle and the binding flag set. -/
def hsysOneCurve : HairSystem :=
  { pattern := { follicles := [HairFollicle.zero] },
    curve_data := { curves := [HairFiberCurve.zero], verts := [] },
    flag_update_binding := true }

/-- Collaborators whose k-d tree query always finds exactly one strand. -/
def envOne : BindEnv :=
  { evalSample := fun _ => some Vec3.zero,
    nearest := fun _ => [0],
    closestTri := fun _ _ _ _ => Vec3.zero,
    baryWeights := fun _ _ _ _ => (1, 0, 0),
    lineFactor := fun _ _ _ => 0 }

/-- Three guide curves, one follicle, flag set. -/
def hsysThreeCurves : HairSystem :=
  { pattern := { follicles := [HairFollicle.zero] },
    curve_data := { curves := [HairFiberCurve.zero, HairFiberCurve.zero, HairFiberCurve.zero],
                    verts := [] },
    flag_update_binding := true }

/-- Collaborators whose k-d tree query finds three strands and whose closest
point on the triangle of their roots is the first root (barycentric weights
(1, 0, 0)). -/
def envThree : BindEnv :=
  { evalSample := fun _ => some Vec3.zero,
    nearest := fun _ => [0, 1, 2],
    closestTri := fun _ _ _ _ => Vec3.zero,
    baryWeights := fun _ _ _ _ => (1, 0, 0),
    lineFactor := fun _ _ _ => 0 }

/-! ## Curve subdivision (`hair_curve_subdivide`, src/unnamed/part_001) -/

/-- Apply `f 0`, `f 1`, ..., `f (count - 1)` to the state in ascending order:
the embedding of a C `for` loop with counter `k`. -/
def applyN {α : Type} (f : ℕ → α → α) : ℕ → α → α
  | 0, r => r
  | k + 1, r => f k (applyN f k r)

/-- `hair_get_strand_subdiv_length`: `((orig_length - 1) << subdiv) + 1`. -/
def hair_get_strand_subdiv_length (orig_length : ℤ) (subdiv : ℕ) : ℤ :=
  (orig_length - 1) * 2 ^ subdiv + 1

/-- The "Calculate edge points" loop of one subdivision level: for each edge
`k`, write the midpoint of the two surrounding points at the half-step. -/
def subdiv_edge_pass (hstep step num_edges : ℕ) (r : ℕ → Vec3) : ℕ → Vec3 :=
  applyN (fun k s => Function.update s (k * step + hstep)
    (Vec3.mid (s (k * step)) (s (k * step + step)))) num_edges r

/-- The "Move original points" loop of one subdivision level: each interior
original point (`k = 1 .. num_edges - 1`, at index `k * step`) is replaced by
the average of its two new neighboring midpoints. -/
def subdiv_move_pass (hstep step cnt : ℕ) (r : ℕ → Vec3) : ℕ → Vec3 :=
  applyN (fun j s => Function.update s ((j + 1) * step)
    (Vec3.mid (s ((j + 1) * step - hstep)) (s ((j + 1) * step + hstep)))) cnt r

/-- One level `d` of `hair_curve_subdivide`: `num_edges = (numverts - 1) << d`,
`hstep = 1 << (subdiv - d - 1)`, `step = 1 << (subdiv - d)`; edge points are
inserted, then the interior original points are moved. -/
def hair_subdiv_level (n subdiv d : ℕ) (r : ℕ → Vec3) : ℕ → Vec3 :=
  subdiv_move_pass (2 ^ (subdiv - d - 1)) (2 ^ (subdiv - d)) ((n - 1) * 2 ^ d - 1)
    (subdiv_edge_pass (2 ^ (subdiv - d - 1)) (2 ^ (subdiv - d)) ((n - 1) * 2 ^ d) r)

/-- `hair_curve_subdivide`: place the control points, offset by
`rootpos - verts[0]`, at multiples of `2^subdiv` over the (uninitialized)
output buffer `base`, then subdivide level by level (`d = 0 .. subdiv - 1`).
The written buffer is returned as a function; the C function also returns
`((numverts - 1) << subdiv) + 1`, the number of valid vertices. -/
def hair_curve_subdivide (curve : HairFiberCurve) (verts : List HairFiberVertex)
    (subdiv : ℕ) (rootpos : Vec3) (base : ℕ → Vec3) : ℕ → Vec3 :=
  let n := curve.numverts.toNat
  let offset := rootpos.sub ((verts.getD 0 HairFiberVertex.zero).co)
  let r0 := applyN
    (fun i s => Function.update s (i * 2 ^ subdiv)
      (((verts.getD i HairFiberVertex.zero).co).add offset)) n base
  applyN (fun d s => hair_subdiv_level n subdiv d s) subdiv r0

/-- A three-control-point guide curve. -/
def curveThree : HairFiberCurve := ⟨0, 3, 0, 0, 0⟩

/-- Its control points: a non-collinear polyline. -/
def vertsThree : List HairFiberVertex :=
  [⟨0, ⟨0, 0, 0⟩⟩, ⟨0, ⟨4, 4, 0⟩⟩, ⟨0, ⟨8, 0, 0⟩⟩]

/-! ## Export cache (src/unnamed/part_001)

The cache owns `Option`-valued buffer pointers (`none` = NULL = absent) plus
the scalar counters `totcurves`, `totverts`, `totfibercurves`,
`totfiberverts`, which persist across invalidation. Tangent/normal buffers are
presence-only (their values involve square roots, outside the rational
fragment, and no claim concerns them). `evalRoot` is the external surface
evaluator `BKE_mesh_sample_eval` restricted to the position output (the update
code ignores its boolean result). -/

/-- The five export-data categories (`HAIR_EXPORT_*` bits) as a flag set. -/
structure HairExportFlags where
  fiber_curves : Bool
  fiber_vertices : Bool
  follicle_binding : Bool
  fiber_root_positions : Bool
  fiber_vertex_counts : Bool
deriving DecidableEq, Repr

/-- Bitwise `&` of two flag sets. -/
def HairExportFlags.inter (a b : HairExportFlags) : HairExportFlags :=
  ⟨a.fiber_curves && b.fiber_curves, a.fiber_vertices && b.fiber_vertices,
   a.follicle_binding && b.follicle_binding,
   a.fiber_root_positions && b.fiber_root_positions,
   a.fiber_vertex_counts && b.fiber_vertex_counts⟩

/-- Bitwise `a & ~b`: the categories of `a` outside `b`. -/
def HairExportFlags.minus (a b : HairExportFlags) : HairExportFlags :=
  ⟨a.fiber_curves && !b.fiber_curves, a.fiber_vertices && !b.fiber_vertices,
   a.follicle_binding && !b.follicle_binding,
   a.fiber_root_positions && !b.fiber_root_positions,
   a.fiber_vertex_counts && !b.fiber_vertex_counts⟩

/-- `HairExportCache`. The `follicles` pointer is borrowed from the pattern;
everything else is owned. -/
structure HairExportCache where
  totcurves : ℕ
  totverts : ℤ
  totfibercurves : ℕ
  totfiberverts : ℤ
  fiber_curves : Option (List HairFiberCurve)
  fiber_verts : Option (List Vec3)
  fiber_tangents : Option Unit
  fiber_normals : Option Unit
  follicles : Option (List HairFollicle)
  fiber_root_position : Option (List Vec3)
  fiber_numverts : Option (List ℤ)

/-- `hair_export_cache_get_required_updates`: flags for the data parts whose
pointers are NULL (the vertices category is missing when any of the three
per-vertex buffers is). -/
def hair_export_cache_get_required_updates (cache : HairExportCache) : HairExportFlags :=
  ⟨cache.fiber_curves.isNone,
   cache.fiber_verts.isNone || cache.fiber_normals.isNone || cache.fiber_tangents.isNone,
   cache.follicles.isNone,
   cache.fiber_root_position.isNone,
   cache.fiber_numverts.isNone⟩

/-- `hair_export_cache_get_dependencies`: requesting curves requires vertices
and follicle binding; requesting follicle binding requires root positions and
vertex counts. The two steps are applied in this order (the source notes the
ordering accounts for the recursive dependency). -/
def hair_export_cache_get_dependencies (data : HairExportFlags) : HairExportFlags :=
  let d1 := if data.fiber_curves then
    { data with fiber_vertices := true, follicle_binding := true } else data
  if d1.follicle_binding then
    { d1 with fiber_root_positions := true, fiber_vertex_counts := true } else d1

/-- The subdivided curve records of the `HAIR_EXPORT_FIBER_CURVES` block, with
the running vertex-start prefix sum; also returns the final total. -/
def export_curves_build (subdiv : ℕ) : List HairFiberCurve → ℤ → List HairFiberCurve × ℤ
  | [], tv => ([], tv)
  | c :: rest, tv =>
      let nv := hair_get_strand_subdiv_length c.numverts subdiv
      let r := export_curves_build subdiv rest (tv + nv)
      ({ c with numverts := nv, vertstart := tv } :: r.1, r.2)

/-- The cached subdivided curves computed by the curves block. -/
def export_curves_content (hsys : HairSystem) (subdiv : ℕ) : List HairFiberCurve :=
  (export_curves_build subdiv hsys.curve_data.curves 0).1

/-- The cache's `totverts` computed by the curves block. -/
def export_totverts (hsys : HairSystem) (subdiv : ℕ) : ℤ :=
  (export_curves_build subdiv hsys.curve_data.curves 0).2

/-- "Cache subdivided curves": `HAIR_EXPORT_FIBER_CURVES` block of
`BKE_hair_export_cache_update`. -/
def export_compute_curves (cache : HairExportCache) (hsys : HairSystem) (subdiv : ℕ) :
    HairExportCache :=
  { cache with
      totcurves := hsys.curve_data.curves.length,
      fiber_curves := some (export_curves_content hsys subdiv),
      totverts := export_totverts hsys subdiv }

/-- Write `len` values of `src` into the flat buffer starting at `start`. -/
def write_region (base : ℕ → Vec3) (start len : ℕ) (src : ℕ → Vec3) : ℕ → Vec3 :=
  fun j => if start ≤ j ∧ j < start + len then src (j - start) else base j

/-- The per-curve loop of the `HAIR_EXPORT_FIBER_VERTICES` block: for each
curve, subdivide the original vertices (anchored at the evaluated root
position of the cached curve's sample) into the region
`[vertstart, vertstart + subdivided length)` of the flat vertex buffer. -/
def export_verts_fill (hsys : HairSystem) (subdiv : ℕ) (evalRoot : MeshSample → Vec3)
    (ecurves : List HairFiberCurve) (totcurves : ℕ) : ℕ → Vec3 :=
  applyN
    (fun i buf =>
      write_region buf ((ecurves.getD i HairFiberCurve.zero).vertstart.toNat)
        (hair_get_strand_subdiv_length
          ((hsys.curve_data.curves.getD i HairFiberCurve.zero).numverts) subdiv).toNat
        (hair_curve_subdivide (hsys.curve_data.curves.getD i HairFiberCurve.zero)
          (hsys.curve_data.verts.drop
            ((hsys.curve_data.curves.getD i HairFiberCurve.zero).vertstart.toNat))
          subdiv
          (evalRoot ((ecurves.getD i HairFiberCurve.zero).mesh_sample))
          (fun _ => Vec3.zero)))
    totcurves (fun _ => Vec3.zero)

/-- `HAIR_EXPORT_FIBER_VERTICES` block: fill the vertex buffer (of the cache's
current `totverts` size, looping over the cache's current `totcurves` and
cached curves) and mark tangents/normals present (their values are computed by
`hair_curve_calc_vectors`, outside the rational fragment). -/
def export_compute_verts (cache : HairExportCache) (hsys : HairSystem) (subdiv : ℕ)
    (evalRoot : MeshSample → Vec3) : HairExportCache :=
  { cache with
      fiber_verts := some ((List.range cache.totverts.toNat).map
        (export_verts_fill hsys subdiv evalRoot (cache.fiber_curves.getD [])
          cache.totcurves)),
      fiber_tangents := some (),
      fiber_normals := some () }

/-- `HAIR_EXPORT_FOLLICLE_BINDING` block: borrow the pattern's follicles. -/
def export_compute_binding (cache : HairExportCache) (hsys : HairSystem) : HairExportCache :=
  { cache with
      follicles := some hsys.pattern.follicles,
      totfibercurves := hsys.pattern.follicles.length }

/-- The `(float)cache->fiber_curves[si].numverts` read of the vertex-counts
loop. -/
def export_curve_numverts (ecurves : List HairFiberCurve) (si : ℕ) : ℚ :=
  ((ecurves.getD si HairFiberCurve.zero).numverts : ℚ)

/-- The inner slot loop of the vertex-counts block: accumulate
`numverts * weight` over the parent slots, stopping at the first slot whose
index is the sentinel or whose weight is 0. -/
def fiber_len_loop (cnum : ℕ → ℚ) (f : HairFollicle) : List (Fin 4) → ℚ
  | [] => 0
  | k :: rest =>
      if f.parent_index k = HAIR_STRAND_INDEX_NONE ∨ f.parent_weight k = 0 then 0
      else cnum (f.parent_index k) * f.parent_weight k + fiber_len_loop cnum f rest

/-- Per-fiber vertex count: `(int)(fiblen + 0.5f)`. -/
def export_fiber_numverts (ecurves : List HairFiberCurve) (f : HairFollicle) : ℤ :=
  ctrunc (fiber_len_loop (export_curve_numverts ecurves) f [0, 1, 2, 3] + 1 / 2)

/-- The per-fiber vertex counts over the cache's current `totfibercurves`. -/
def export_counts_content (ecurves : List HairFiberCurve) (follicles : List HairFollicle)
    (totfibercurves : ℕ) : List ℤ :=
  (List.range totfibercurves).map fun i =>
    export_fiber_numverts ecurves (follicles.getD i HairFollicle.zero)

/-- `HAIR_EXPORT_FIBER_VERTEX_COUNTS` block: per-fiber counts from the cached
subdivided curves and the pattern's follicles; `totfiberverts` is their sum. -/
def export_compute_counts (cache : HairExportCache) (hsys : HairSystem) : HairExportCache :=
  { cache with
      fiber_numverts := some (export_counts_content (cache.fiber_curves.getD [])
        hsys.pattern.follicles cache.totfibercurves),
      totfiberverts := (export_counts_content (cache.fiber_curves.getD [])
        hsys.pattern.follicles cache.totfibercurves).sum }

/-- The fiber root positions evaluated from the follicle samples. -/
def export_roots_content (evalRoot : MeshSample → Vec3) (follicles : List HairFollicle)
    (totfibercurves : ℕ) : List Vec3 :=
  (List.range totfibercurves).map fun i =>
    evalRoot (follicles.getD i HairFollicle.zero).mesh_sample

/-- `HAIR_EXPORT_FIBER_ROOT_POSITIONS` block. -/
def export_compute_roots (cache : HairExportCache) (hsys : HairSystem)
    (evalRoot : MeshSample → Vec3) : HairExportCache :=
  { cache with
      fiber_root_position := some (export_roots_content evalRoot
        hsys.pattern.follicles cache.totfibercurves) }

/-- `BKE_hair_export_cache_update`: expand the request to its dependency
closure, intersect with the absent categories, recompute exactly that set —
in the source's order: curves, then vertices, then follicle binding, then
vertex counts, then root positions — and return it. (`hsys->pattern` is always
allocated, see `HairSystem`; the NULL-pattern else-branch is dead.) -/
def BKE_hair_export_cache_update (cache : HairExportCache) (hsys : HairSystem)
    (subdiv : ℕ) (evalRoot : MeshSample → Vec3) (requested_data : HairExportFlags) :
    HairExportCache × HairExportFlags :=
  let data := (hair_export_cache_get_dependencies requested_data).inter
    (hair_export_cache_get_required_updates cache)
  let c1 := if data.fiber_curves then export_compute_curves cache hsys subdiv else cache
  let c2 := if data.fiber_vertices then export_compute_verts c1 hsys subdiv evalRoot else c1
  let c3 := if data.follicle_binding then export_compute_binding c2 hsys else c2
  let c4 := if data.fiber_vertex_counts then export_compute_counts c3 hsys else c3
  let c5 := if data.fiber_root_positions then export_compute_roots c4 hsys evalRoot else c4
  (c5, data)

/-- The update sequenced in the order the claim states (vertex counts and root
positions first, then follicle binding, then vertices, then curves), for
comparison with the source's order. -/
def export_cache_update_claim_order (cache : HairExportCache) (hsys : HairSystem)
    (subdiv : ℕ) (evalRoot : MeshSample → Vec3) (requested_data : HairExportFlags) :
    HairExportCache × HairExportFlags :=
  let data := (hair_export_cache_get_dependencies requested_data).inter
    (hair_export_cache_get_required_updates cache)
  let c1 := if data.fiber_vertex_counts then export_compute_counts cache hsys else cache
  let c2 := if data.fiber_root_positions then export_compute_roots c1 hsys evalRoot else c1
  let c3 := if data.follicle_binding then export_compute_binding c2 hsys else c2
  let c4 := if data.fiber_vertices then export_compute_verts c3 hsys subdiv evalRoot else c3
  let c5 := if data.fiber_curves then export_compute_curves c4 hsys subdiv else c4
  (c5, data)

/-- `BKE_hair_export_cache_invalidate`: expand to the dependency closure and
clear the owned buffers to NULL. The vertices branch reproduces the source
faithfully: it nulls `fiber_verts` and `fiber_tangents`, then — inside the
`if (cache->fiber_normals)` guard — frees `fiber_normals` but assigns
`cache->fiber_tangents = NULL` a second time, leaving the `fiber_normals`
pointer unchanged (dangling in C). -/
def BKE_hair_export_cache_invalidate (cache : HairExportCache)
    (invalidate : HairExportFlags) : HairExportCache :=
  let data := hair_export_cache_get_dependencies invalidate
  let c1 := if data.fiber_curves then { cache with fiber_curves := none } else cache
  let c2 := if data.fiber_vertices then
      let a := { c1 with fiber_verts := none, fiber_tangents := none }
      if a.fiber_normals.isSome then { a with fiber_tangents := none } else a
    else c1
  let c3 := if data.follicle_binding then { c2 with follicles := none } else c2
  let c4 := if data.fiber_root_positions then { c3 with fiber_root_position := none } else c3
  if data.fiber_vertex_counts then { c4 with fiber_numverts := none } else c4

/-- The result a single update pass must produce according to the (amended)
claim: exactly the categories of `data` are recomputed; vertex counts and
root positions read the follicle count as updated by the binding block, and
vertex counts and vertices read the curve records and totals as updated by the
curves block; every other field is left untouched. -/
def export_cache_update_spec (cache : HairExportCache) (hsys : HairSystem) (subdiv : ℕ)
    (evalRoot : MeshSample → Vec3) (data : HairExportFlags) : HairExportCache :=
  let curvesEff := if data.fiber_curves then export_curves_content hsys subdiv
    else cache.fiber_curves.getD []
  let tcEff := if data.fiber_curves then hsys.curve_data.curves.length else cache.totcurves
  let tvEff := if data.fiber_curves then export_totverts hsys subdiv else cache.totverts
  let tfcEff := if data.follicle_binding then hsys.pattern.follicles.length
    else cache.totfibercurves
  { totcurves := tcEff,
    totverts := tvEff,
    totfibercurves := tfcEff,
    totfiberverts := if data.fiber_vertex_counts
      then (export_counts_content curvesEff hsys.pattern.follicles tfcEff).sum
      else cache.totfiberverts,
    fiber_curves := if data.fiber_curves then some (export_curves_content hsys subdiv)
      else cache.fiber_curves,
    fiber_verts := if data.fiber_vertices
      then some ((List.range tvEff.toNat).map
        (export_verts_fill hsys subdiv evalRoot curvesEff tcEff))
      else cache.fiber_verts,
    fiber_tangents := if data.fiber_vertices then some () else cache.fiber_tangents,
    fiber_normals := if data.fiber_vertices then some () else cache.fiber_normals,
    follicles := if data.follicle_binding then some hsys.pattern.follicles
      else cache.follicles,
    fiber_root_position := if data.fiber_root_positions
      then some (export_roots_content evalRoot hsys.pattern.follicles tfcEff)
      else cache.fiber_root_position,
    fiber_numverts := if data.fiber_vertex_counts
      then some (export_counts_content curvesEff hsys.pattern.follicles tfcEff)
      else cache.fiber_numverts }

/-- Cache state for the C1 counterexample: curves and vertices cached,
binding, root positions and vertex counts absent, with a stale
`totfibercurves` of 0 (as after `BKE_hair_export_cache_invalidate` of the
binding closure). -/
def cacheStale : HairExportCache :=
  { totcurves := 1, totverts := 2, totfibercurves := 0, totfiberverts := 0,
    fiber_curves := some [⟨0, 2, 0, 0, 0⟩],
    fiber_verts := some [Vec3.zero, Vec3.zero],
    fiber_tangents := some (), fiber_normals := some (),
    follicles := none, fiber_root_position := none, fiber_numverts := none }

/-- A follicle fully weighted on parent strand 0. -/
def follicleW : HairFollicle :=
  ⟨0, fun k => if k = 0 then 0 else HAIR_STRAND_INDEX_NONE,
   fun k => if k = 0 then 1 else 0⟩

/-- Hair system with one guide curve and one follicle bound to it. -/
def hsysOneFollicle : HairSystem :=
  { pattern := { follicles := [follicleW] },
    curve_data := { curves := [⟨0, 2, 0, 0, 0⟩],
                    verts := [HairFiberVertex.zero, HairFiberVertex.zero] },
    flag_update_binding := false }

/-- Request exactly the follicle-binding category. -/
def flagsBinding : HairExportFlags := ⟨false, false, true, false, false⟩

/-- Fully populated cache for the C2 failing input. -/
def cacheFull : HairExportCache :=
  { totcurves := 1, totverts := 2, totfibercurves := 1, totfiberverts := 2,
    fiber_curves := some [HairFiberCurve.zero],
    fiber_verts := some [Vec3.zero, Vec3.zero],
    fiber_tangents := some (), fiber_normals := some (),
    follicles := some [HairFollicle.zero],
    fiber_root_position := some [Vec3.zero],
    fiber_numverts := some [2] }

/-- Request / invalidation of exactly the fiber-vertices category. -/
def flagsVertices : HairExportFlags := ⟨false, true, false, false, false⟩

/-- The claim's per-fiber weighted length `x`: the sum over parent slots,
stopping at the first slot whose index is the sentinel or whose weight is 0.0,
of `parent_weight[k]` times the subdivided vertex count of parent curve
`parent_index[k]`. -/
def fiber_len_claim (cnum : ℕ → ℚ) (f : HairFollicle) : ℚ :=
  ((([0, 1, 2, 3] : List (Fin 4)).takeWhile fun k =>
      decide (f.parent_index k ≠ HAIR_STRAND_INDEX_NONE ∧ f.parent_weight k ≠ 0)).map
    fun k => f.parent_weight k * cnum (f.parent_index k)).sum

/-- Cache state for the C4 witness: one cached subdivided curve of 2 vertices
and one fiber. -/
def cacheForCounts : HairExportCache :=
  { totcurves := 1, totverts := 2, totfibercurves := 1, totfiberverts := 0,
    fiber_curves := some [⟨0, 2, 0, 0, 0⟩],
    fiber_verts := none, fiber_tangents := none, fiber_normals := none,
    follicles := none, fiber_root_position := none, fiber_numverts := none }

/-! ## Theorems -/

/-- C10, counterexample. The debug assertion of `BKE_hair_set_fiber_vertex`
accepts any `index <= totverts`; at `index = totverts` (here `totverts = 0`,
`index = 0`) the assertion holds but the write falls outside the owned array,
so the out-of-bounds branch is reachable under the asserted precondition. -/
theorem claim_C10_cex :
    0 ≤ hsysEmptyVerts.curve_data.totverts ∧
      BKE_hair_set_fiber_vertex hsysEmptyVerts 0 0 Vec3.zero = none := by
  constructor
  · exact Nat.zero_le _
  · rfl

/-- C10, amended: under the strict bound `index < totverts` (respectively
`index < totcurves`) — one tighter than the `<=` the debug assertions check —
the write performed by `BKE_hair_set_fiber_vertex` (respectively
`BKE_hair_set_fiber_curve`) lands inside the owned array and the out-of-bounds
branch is unreachable; the array keeps its `totverts` (resp. `totcurves`)
elements. -/
theorem claim_C10 (hsys : HairSystem) (index : ℕ) (flag : ℤ) (co : Vec3)
    (mesh_sample : MeshSample) (numverts : ℤ) (tl tt : ℚ)
    (hv : index < hsys.curve_data.totverts) (hc : index < hsys.curve_data.totcurves) :
    (∃ hsys', BKE_hair_set_fiber_vertex hsys index flag co = some hsys' ∧
        hsys'.curve_data.totverts = hsys.curve_data.totverts) ∧
    (∃ hsys', BKE_hair_set_fiber_curve hsys index mesh_sample numverts tl tt = some hsys' ∧
        hsys'.curve_data.totcurves = hsys.curve_data.totcurves) := by
  have hv' : index < hsys.curve_data.verts.length := hv
  have hc' : index < hsys.curve_data.curves.length := hc
  constructor
  · refine ⟨{ hsys with
        curve_data := { hsys.curve_data with
          verts := hsys.curve_data.verts.set index ⟨flag, co⟩ } }, ?_, ?_⟩
    · simp only [BKE_hair_set_fiber_vertex, if_pos hv']
    · simp [HairCurveData.totverts]
  · refine ⟨{ hsys with
        curve_data := { hsys.curve_data with
          curves := hsys.curve_data.curves.set index
            ⟨mesh_sample, numverts,
             (hsys.curve_data.curves.getD index HairFiberCurve.zero).vertstart, tl, tt⟩ },
        flag_update_binding := true }, ?_, ?_⟩
    · simp only [BKE_hair_set_fiber_curve, if_pos hc']
    · simp [HairCurveData.totcurves]

/-- C10 witness: the amended statement at a concrete in-bounds index. -/
theorem claim_C10_witness :
    (0 < hsysOneVert.curve_data.totverts ∧ 0 < hsysOneVert.curve_data.totcurves) ∧
    ((∃ hsys', BKE_hair_set_fiber_vertex hsysOneVert 0 0 Vec3.zero = some hsys' ∧
        hsys'.curve_data.totverts = hsysOneVert.curve_data.totverts) ∧
     (∃ hsys', BKE_hair_set_fiber_curve hsysOneVert 0 0 5 0 0 = some hsys' ∧
        hsys'.curve_data.totcurves = hsysOneVert.curve_data.totcurves)) :=
  ⟨⟨by decide, by decide⟩,
   claim_C10 hsysOneVert 0 0 Vec3.zero 0 5 0 0 (by decide) (by decide)⟩

/-- C8: for every triangle and every density, the distributor emits
`floor(area * density)` points plus one extra exactly when the fractional part
of `area * density` exceeds the triangle's pseudo-random draw; in particular a
unit-area triangle at density 10 yields 10 or 11 points. -/
theorem claim_C8 (area density draw : ℚ) (ha : 0 ≤ area) (hd : 0 ≤ density) :
    scatter_tri_point_amount area density draw
        = ⌊area * density⌋ + (if fract (area * density) > draw then 1 else 0) ∧
    (scatter_tri_point_amount area density draw = ⌊area * density⌋ ∨
      scatter_tri_point_amount area density draw = ⌊area * density⌋ + 1) ∧
    (area = 1 → density = 10 →
      scatter_tri_point_amount area density draw = 10 ∨
        scatter_tri_point_amount area density draw = 11) := by
  have hnn : 0 ≤ area * density := mul_nonneg ha hd
  have h1 : scatter_tri_point_amount area density draw
      = ⌊area * density⌋ + (if fract (area * density) > draw then 1 else 0) := by
    simp [scatter_tri_point_amount, ctrunc, if_pos hnn]
  refine ⟨h1, ?_, ?_⟩
  · rw [h1]
    by_cases h : fract (area * density) > draw
    · right; simp [h]
    · left; simp [h]
  · intro harea hdens
    subst harea hdens
    rw [h1]
    have hf : fract ((1 : ℚ) * 10) = 0 := by norm_num [fract]
    rw [hf]
    by_cases h : (0 : ℚ) > draw
    · right; rw [if_pos h]; norm_num
    · left; rw [if_neg h]; norm_num

/-- C8 witness: a unit-area triangle at density 10 with draw 1/2 emits exactly
`floor(10) = 10` points (the fractional part 0 does not exceed the draw). -/
theorem claim_C8_witness :
    ((0 : ℚ) ≤ 1 ∧ (0 : ℚ) ≤ 10) ∧
    (scatter_tri_point_amount 1 10 (1/2)
        = ⌊(1 : ℚ) * 10⌋ + (if fract ((1 : ℚ) * 10) > 1/2 then 1 else 0) ∧
     (scatter_tri_point_amount 1 10 (1/2) = ⌊(1 : ℚ) * 10⌋ ∨
       scatter_tri_point_amount 1 10 (1/2) = ⌊(1 : ℚ) * 10⌋ + 1) ∧
     ((1 : ℚ) = 1 → (10 : ℚ) = 10 →
       scatter_tri_point_amount 1 10 (1/2) = 10 ∨
         scatter_tri_point_amount 1 10 (1/2) = 11)) :=
  ⟨⟨by norm_num, by norm_num⟩, claim_C8 1 10 (1/2) (by norm_num) (by norm_num)⟩

/-- C9: a geometry container (set or component) is mutable exactly while its
reference count is at most 1; a write access to a component whose reference
count exceeds 1 replaces it in the slot by a private copy (fresh, user count 1,
carrying a copy of the data) and mutates that copy, leaving the shared
original's data unchanged (one user fewer); a write access to an unshared
component mutates it in place. -/
theorem claim_C9 :
    (∀ c : GeoComponent, c.is_mutable = true ↔ c.users ≤ 1) ∧
    (∀ s : GeometrySet, s.is_mutable = true ↔ s.users ≤ 1) ∧
    (∀ (st : GeoState) (t : GeometryComponentType) (cid : ℕ),
      st.set.slot t = some cid → cid < st.fresh → 1 < (st.heap cid).users →
        (get_component_for_write st t).1 ≠ cid ∧
        ((get_component_for_write st t).2.heap (get_component_for_write st t).1).users = 1 ∧
        ((get_component_for_write st t).2.heap (get_component_for_write st t).1).data
          = (st.heap cid).data ∧
        ((get_component_for_write st t).2.heap cid).data = (st.heap cid).data ∧
        ((get_component_for_write st t).2.heap cid).users = (st.heap cid).users - 1 ∧
        (get_component_for_write st t).2.set.slot t = some (get_component_for_write st t).1) ∧
    (∀ (st : GeoState) (t : GeometryComponentType) (cid : ℕ),
      st.set.slot t = some cid → (st.heap cid).users ≤ 1 →
        get_component_for_write st t = (cid, st)) := by
  refine ⟨fun c => by simp [GeoComponent.is_mutable], fun s => by simp [GeometrySet.is_mutable],
    ?_, ?_⟩
  · intro st t cid hslot hlt hshared
    have hne : cid ≠ st.fresh := Nat.ne_of_lt hlt
    have hnot : ¬ (st.heap cid).users ≤ 1 := by omega
    simp only [get_component_for_write, hslot, if_neg hnot]
    refine ⟨fun h => hne h.symm, ?_, ?_, ?_, ?_, ?_⟩
    · simp [Function.update_same]
    · simp [Function.update_same]
    · simp [Function.update_noteq hne, Function.update_same]
    · simp [Function.update_noteq hne, Function.update_same]
    · cases t <;> simp [GeometrySet.setSlot, GeometrySet.slot]
  · intro st t cid hslot hmut
    simp only [get_component_for_write, hslot, if_pos hmut]

/-- C9 witness: the copy-on-write branch at a concrete shared component, and
the in-place branch at a concrete unshared component. -/
theorem claim_C9_witness :
    (geoStateShared.set.slot GeometryComponentType.Mesh = some 0 ∧
      0 < geoStateShared.fresh ∧ 1 < (geoStateShared.heap 0).users) ∧
    ((get_component_for_write geoStateShared GeometryComponentType.Mesh).1 ≠ 0 ∧
     ((get_component_for_write geoStateShared GeometryComponentType.Mesh).2.heap
        (get_component_for_write geoStateShared GeometryComponentType.Mesh).1).users = 1 ∧
     ((get_component_for_write geoStateShared GeometryComponentType.Mesh).2.heap
        (get_component_for_write geoStateShared GeometryComponentType.Mesh).1).data
       = (geoStateShared.heap 0).data ∧
     ((get_component_for_write geoStateShared GeometryComponentType.Mesh).2.heap 0).data
       = (geoStateShared.heap 0).data ∧
     ((get_component_for_write geoStateShared GeometryComponentType.Mesh).2.heap 0).users
       = (geoStateShared.heap 0).users - 1 ∧
     (get_component_for_write geoStateShared GeometryComponentType.Mesh).2.set.slot
        GeometryComponentType.Mesh
       = some (get_component_for_write geoStateShared GeometryComponentType.Mesh).1) :=
  ⟨⟨rfl, by decide, by decide⟩,
   claim_C9.2.2.1 geoStateShared GeometryComponentType.Mesh 0 rfl (by decide) (by decide)⟩

theorem findMaxi_ge (w : Fin 4 → ℚ) :
    ∀ (l : List (Fin 4)) (m : Fin 4),
      w m ≤ w (findMaxi w m l) ∧ ∀ i ∈ l, w i ≤ w (findMaxi w m l) := by
  intro l
  induction l with
  | nil => exact fun m => ⟨le_refl _, by simp⟩
  | cons i rest ih =>
    intro m
    by_cases h : w i > w m
    · simp only [findMaxi, if_pos h]
      refine ⟨le_trans (le_of_lt h) (ih i).1, ?_⟩
      intro j hj
      rcases List.mem_cons.mp hj with hj | hj
      · subst hj; exact (ih j).1
      · exact (ih i).2 j hj
    · simp only [findMaxi, if_neg h]
      refine ⟨(ih m).1, ?_⟩
      intro j hj
      rcases List.mem_cons.mp hj with hj | hj
      · subst hj; exact le_trans (le_of_not_lt h) (ih m).1
      · exact (ih m).2 j hj

theorem findMaxi_mem (w : Fin 4 → ℚ) :
    ∀ (l : List (Fin 4)) (m : Fin 4), findMaxi w m l = m ∨ findMaxi w m l ∈ l := by
  intro l
  induction l with
  | nil => exact fun m => Or.inl rfl
  | cons i rest ih =>
    intro m
    by_cases h : w i > w m
    · simp only [findMaxi, if_pos h]
      rcases ih i with h1 | h1
      · right; rw [h1]; exact List.mem_cons_self _ _
      · right; exact List.mem_cons_of_mem _ h1
    · simp only [findMaxi, if_neg h]
      rcases ih m with h1 | h1
      · left; exact h1
      · right; exact List.mem_cons_of_mem _ h1

theorem swapAt_eq_comp {α : Type} (f : Fin 4 → α) (a b : Fin 4) :
    swapAt f a b = f ∘ (Equiv.swap a b) := by
  funext j
  simp only [swapAt, Function.comp_apply, Equiv.swap_apply_def]
  split_ifs <;> rfl

theorem selPass_spec (idx : Fin 4 → ℕ) (w : Fin 4 → ℚ) (k : Fin 4) (cands : List (Fin 4)) :
    ∃ m : Fin 4, (m = k ∨ m ∈ cands) ∧
      selPass (idx, w) k cands = (idx ∘ (Equiv.swap k m), w ∘ (Equiv.swap k m)) ∧
      w k ≤ w m ∧ ∀ i ∈ cands, w i ≤ w m := by
  refine ⟨findMaxi w k cands, findMaxi_mem w cands k, ?_, (findMaxi_ge w cands k).1,
    (findMaxi_ge w cands k).2⟩
  simp only [selPass]
  by_cases h : findMaxi w k cands = k
  · rw [if_pos h, h, Equiv.swap_self]
    simp [Function.comp_def]
  · rw [if_neg h, swapAt_eq_comp, swapAt_eq_comp]

theorem sort_weights_spec (idx : Fin 4 → ℕ) (w : Fin 4 → ℚ) :
    ∃ σ : Equiv.Perm (Fin 4),
      hair_fiber_sort_weights (idx, w) = (idx ∘ σ, w ∘ σ) ∧
      (w ∘ σ) 1 ≤ (w ∘ σ) 0 ∧ (w ∘ σ) 2 ≤ (w ∘ σ) 1 ∧ (w ∘ σ) 3 ≤ (w ∘ σ) 2 := by
  obtain ⟨m1, hm1, he1, hk1, hc1⟩ := selPass_spec idx w 0 [1, 2, 3]
  obtain ⟨m2, hm2, he2, hk2, hc2⟩ :=
    selPass_spec (idx ∘ (Equiv.swap 0 m1)) (w ∘ (Equiv.swap 0 m1)) 1 [2, 3]
  obtain ⟨m3, hm3, he3, hk3, hc3⟩ :=
    selPass_spec ((idx ∘ (Equiv.swap 0 m1)) ∘ (Equiv.swap 1 m2))
      ((w ∘ (Equiv.swap 0 m1)) ∘ (Equiv.swap 1 m2)) 2 [3]
  have hm2r : m2 = 1 ∨ m2 = 2 ∨ m2 = 3 := by
    rcases hm2 with h | h
    · exact Or.inl h
    · exact Or.inr (by simpa using h)
  have hm3r : m3 = 2 ∨ m3 = 3 := by
    rcases hm3 with h | h
    · exact Or.inl h
    · exact Or.inr (by simpa using h)
  have s2_0 : Equiv.swap 1 m2 0 = 0 := by
    refine Equiv.swap_apply_of_ne_of_ne (by decide) ?_
    rcases hm2r with h | h | h <;> subst h <;> decide
  have s3_0 : Equiv.swap 2 m3 0 = 0 := by
    refine Equiv.swap_apply_of_ne_of_ne (by decide) ?_
    rcases hm3r with h | h <;> subst h <;> decide
  have s3_1 : Equiv.swap 2 m3 1 = 1 := by
    refine Equiv.swap_apply_of_ne_of_ne (by decide) ?_
    rcases hm3r with h | h <;> subst h <;> decide
  have cover1 : ∀ x : Fin 4, x = 0 ∨ x ∈ ([1, 2, 3] : List (Fin 4)) := by decide
  have hall1 : ∀ x : Fin 4, w x ≤ w m1 := by
    intro x
    rcases cover1 x with h | h
    · subst h; exact hk1
    · exact hc1 x h
  have hseg2 : ∀ x : Fin 4, (x = 1 ∨ x ∈ ([2, 3] : List (Fin 4))) →
      (w ∘ (Equiv.swap 0 m1)) x ≤ (w ∘ (Equiv.swap 0 m1)) m2 := by
    intro x hx
    rcases hx with h | h
    · subst h; exact hk2
    · exact hc2 x h
  have hseg3 : ∀ x : Fin 4, (x = 2 ∨ x ∈ ([3] : List (Fin 4))) →
      ((w ∘ (Equiv.swap 0 m1)) ∘ (Equiv.swap 1 m2)) x
        ≤ ((w ∘ (Equiv.swap 0 m1)) ∘ (Equiv.swap 1 m2)) m3 := by
    intro x hx
    rcases hx with h | h
    · subst h; exact hk3
    · exact hc3 x h
  refine ⟨(Equiv.swap 2 m3).trans ((Equiv.swap 1 m2).trans (Equiv.swap 0 m1)), ?_, ?_, ?_, ?_⟩
  · rw [hair_fiber_sort_weights, he1, he2, he3, Prod.mk.injEq]
    constructor <;> funext j <;>
      simp [Function.comp_apply, Equiv.trans_apply]
  · show w ((Equiv.swap 0 m1) ((Equiv.swap 1 m2) ((Equiv.swap 2 m3) 1)))
      ≤ w ((Equiv.swap 0 m1) ((Equiv.swap 1 m2) ((Equiv.swap 2 m3) 0)))
    rw [s3_0, s2_0, Equiv.swap_apply_left]
    exact hall1 _
  · show w ((Equiv.swap 0 m1) ((Equiv.swap 1 m2) ((Equiv.swap 2 m3) 2)))
      ≤ w ((Equiv.swap 0 m1) ((Equiv.swap 1 m2) ((Equiv.swap 2 m3) 1)))
    rw [s3_1, Equiv.swap_apply_left, Equiv.swap_apply_left]
    have hin : Equiv.swap 1 m2 m3 = 1 ∨ Equiv.swap 1 m2 m3 ∈ ([2, 3] : List (Fin 4)) := by
      rcases hm2r with h2 | h2 | h2 <;> rcases hm3r with h3 | h3 <;>
        subst h2 <;> subst h3 <;> decide
    exact hseg2 _ hin
  · show w ((Equiv.swap 0 m1) ((Equiv.swap 1 m2) ((Equiv.swap 2 m3) 3)))
      ≤ w ((Equiv.swap 0 m1) ((Equiv.swap 1 m2) ((Equiv.swap 2 m3) 2)))
    rw [Equiv.swap_apply_left]
    have hin : Equiv.swap 2 m3 3 = 2 ∨ Equiv.swap 2 m3 3 ∈ ([3] : List (Fin 4)) := by
      rcases hm3r with h3 | h3 <;> subst h3 <;> decide
    exact hseg3 _ hin

theorem clamp01_pair_sum (t : ℚ) : clamp01 (1 - t) + clamp01 t = 1 := by
  unfold clamp01
  split_ifs <;> linarith

theorem clamp01_of_mem (q : ℚ) (h0 : 0 ≤ q) (h1 : q ≤ 1) : clamp01 q = q := by
  unfold clamp01
  split_ifs <;> linarith

theorem pre_parent_weight_sum (env : BindEnv) (sloc : ℕ → Vec3) (loc : Vec3) (found : ℕ)
    (hf1 : 1 ≤ found) (hf3 : found ≤ 3)
    (hbary : ∀ p a b c, convexBary (env.baryWeights a b c (env.closestTri p a b c))) :
    pre_parent_weight env sloc loc found 0 + pre_parent_weight env sloc loc found 1 +
      pre_parent_weight env sloc loc found 2 + pre_parent_weight env sloc loc found 3 = 1 := by
  interval_cases found
  · simp [pre_parent_weight]
  · simp only [pre_parent_weight]
    norm_num
    rw [if_neg (by decide : ¬((2 : Fin 4) = 0)), if_neg (by decide : ¬((2 : Fin 4) = 1)),
      if_neg (by decide : ¬((3 : Fin 4) = 0)), if_neg (by decide : ¬((3 : Fin 4) = 1))]
    linarith [clamp01_pair_sum (env.lineFactor loc (sloc 0) (sloc 1))]
  · obtain ⟨ha, hb, hc, hsum⟩ :=
      hbary loc (sloc 0) (sloc 1) (sloc 2)
    simp only [pre_parent_weight]
    norm_num
    rw [if_neg (by decide : ¬((2 : Fin 4) = 0)), if_neg (by decide : ¬((2 : Fin 4) = 1)),
      if_neg (by decide : ¬((3 : Fin 4) = 0)), if_neg (by decide : ¬((3 : Fin 4) = 1)),
      if_neg (by decide : ¬((3 : Fin 4) = 2))]
    rw [clamp01_of_mem _ ha (by linarith), clamp01_of_mem _ hb (by linarith),
      clamp01_of_mem _ hc (by linarith)]
    linarith

theorem sorted_output_spec (idx : Fin 4 → ℕ) (w : Fin 4 → ℚ)
    (hsum : w 0 + w 1 + w 2 + w 3 = 1) :
    ((hair_fiber_sort_weights (idx, w)).2 0 + (hair_fiber_sort_weights (idx, w)).2 1 +
      (hair_fiber_sort_weights (idx, w)).2 2 + (hair_fiber_sort_weights (idx, w)).2 3 = 1) ∧
    (hair_fiber_sort_weights (idx, w)).2 1 ≤ (hair_fiber_sort_weights (idx, w)).2 0 ∧
    (hair_fiber_sort_weights (idx, w)).2 2 ≤ (hair_fiber_sort_weights (idx, w)).2 1 ∧
    (hair_fiber_sort_weights (idx, w)).2 3 ≤ (hair_fiber_sort_weights (idx, w)).2 2 := by
  obtain ⟨σ, heq, hs1, hs2, hs3⟩ := sort_weights_spec idx w
  rw [heq]
  refine ⟨?_, hs1, hs2, hs3⟩
  have h4 : ∀ v : Fin 4 → ℚ, v 0 + v 1 + v 2 + v 3 = ∑ j : Fin 4, v j := by
    intro v; rw [Fin.sum_univ_four]
  rw [h4]
  have hc : ∑ j : Fin 4, (w ∘ σ) j = ∑ j : Fin 4, w j := by
    simpa [Function.comp_apply] using Equiv.sum_comp σ w
  rw [hc, ← h4, hsum]

theorem find_closest_strand_weights (env : BindEnv) (strandloc : List Vec3)
    (f : HairFollicle) (loc : Vec3)
    (hbary : ∀ p a b c, convexBary (env.baryWeights a b c (env.closestTri p a b c)))
    (hfound : (env.nearest loc).length ≠ 0) :
    ((hair_fiber_find_closest_strand env strandloc f loc).parent_weight 0 +
      (hair_fiber_find_closest_strand env strandloc f loc).parent_weight 1 +
      (hair_fiber_find_closest_strand env strandloc f loc).parent_weight 2 +
      (hair_fiber_find_closest_strand env strandloc f loc).parent_weight 3 = 1) ∧
    (hair_fiber_find_closest_strand env strandloc f loc).parent_weight 1
      ≤ (hair_fiber_find_closest_strand env strandloc f loc).parent_weight 0 ∧
    (hair_fiber_find_closest_strand env strandloc f loc).parent_weight 2
      ≤ (hair_fiber_find_closest_strand env strandloc f loc).parent_weight 1 ∧
    (hair_fiber_find_closest_strand env strandloc f loc).parent_weight 3
      ≤ (hair_fiber_find_closest_strand env strandloc f loc).parent_weight 2 := by
  have hf1 : 1 ≤ ((env.nearest loc).take 3).length := by
    rw [List.length_take]
    omega
  have hf3 : ((env.nearest loc).take 3).length ≤ 3 := by
    rw [List.length_take]
    omega
  simp only [hair_fiber_find_closest_strand]
  exact sorted_output_spec _ _
    (pre_parent_weight_sum env _ loc ((env.nearest loc).take 3).length hf1 hf3 hbary)

theorem pre_parent_weight_zero_of_ge (env : BindEnv) (sloc : ℕ → Vec3) (loc : Vec3)
    (found : ℕ) (k : Fin 4) (h : found ≤ (k : ℕ)) :
    pre_parent_weight env sloc loc found k = 0 := by
  fin_cases k <;>
    simp only [Fin.isValue] at h ⊢ <;>
    simp only [pre_parent_weight] <;>
    split_ifs <;>
    first
      | rfl
      | omega

theorem getD_mem_of_lt {α : Type} (l : List α) (n : ℕ) (d : α) (h : n < l.length) :
    l.getD n d ∈ l := by
  induction l generalizing n with
  | nil => simp at h
  | cons a t ih =>
    cases n with
    | zero => simp [List.getD]
    | succ m =>
      simp only [List.getD_cons_succ]
      exact List.mem_cons_of_mem _ (ih m (by simpa using h))

theorem pre_pair_sentinel (env : BindEnv) (sloc : ℕ → Vec3) (loc : Vec3) (ns : List ℕ)
    (hns : ∀ i ∈ ns, i ≠ HAIR_STRAND_INDEX_NONE) (j : Fin 4)
    (h : pre_parent_index ns j = HAIR_STRAND_INDEX_NONE) :
    pre_parent_weight env sloc loc ns.length j = 0 := by
  by_cases hj : (j : ℕ) < ns.length
  · exfalso
    rw [pre_parent_index] at h
    simp only [if_pos hj] at h
    exact hns _ (getD_mem_of_lt ns (j : ℕ) 0 hj) h
  · exact pre_parent_weight_zero_of_ge env sloc loc ns.length j (le_of_not_lt hj)

theorem find_closest_strand_sentinel (env : BindEnv) (strandloc : List Vec3)
    (f : HairFollicle) (loc : Vec3)
    (hidx : ∀ i ∈ env.nearest loc, i ≠ HAIR_STRAND_INDEX_NONE) :
    ∀ k : Fin 4,
      (hair_fiber_find_closest_strand env strandloc f loc).parent_index k
          = HAIR_STRAND_INDEX_NONE →
      (hair_fiber_find_closest_strand env strandloc f loc).parent_weight k = 0 := by
  have htrans : ∀ (idx : Fin 4 → ℕ) (w : Fin 4 → ℚ),
      (∀ j, idx j = HAIR_STRAND_INDEX_NONE → w j = 0) →
      ∀ k : Fin 4, (hair_fiber_sort_weights (idx, w)).1 k = HAIR_STRAND_INDEX_NONE →
        (hair_fiber_sort_weights (idx, w)).2 k = 0 := by
    intro idx w hP k
    obtain ⟨σ, heq, _, _, _⟩ := sort_weights_spec idx w
    rw [heq]
    exact hP (σ k)
  exact htrans (pre_parent_index ((env.nearest loc).take 3))
    (pre_parent_weight env
      (fun j => strandloc.getD (((env.nearest loc).take 3).getD j 0) Vec3.zero) loc
      ((env.nearest loc).take 3).length)
    (fun j hj => pre_pair_sentinel env _ loc ((env.nearest loc).take 3)
      (fun i hi => hidx i (List.take_subset 3 _ hi)) j hj)

/-- C5, counterexample. A hair system whose curve data contains zero guide
strands but whose binding-update flag is clear: `BKE_hair_bind_follicles`
returns true (not false) and leaves the follicle's parent slots untouched
(here a non-sentinel index with weight 1), because binding is lazily
recomputed only when flagged dirty. -/
theorem claim_C5_cex :
    hsysStaleNoCurves.curve_data.totcurves = 0 ∧
    (BKE_hair_bind_follicles envTrivial hsysStaleNoCurves).2 = true ∧
    ((BKE_hair_bind_follicles envTrivial hsysStaleNoCurves).1.pattern.follicles.getD 0
        HairFollicle.zero).parent_index 0 ≠ HAIR_STRAND_INDEX_NONE ∧
    ((BKE_hair_bind_follicles envTrivial hsysStaleNoCurves).1.pattern.follicles.getD 0
        HairFollicle.zero).parent_weight 0 ≠ 0 := by
  refine ⟨rfl, rfl, ?_, ?_⟩ <;> decide

/-- C5, amended: for every hair system whose binding-update flag is set and
whose curve data contains zero guide strands, `BKE_hair_bind_follicles`
returns false and sets every follicle's four parent slots to the sentinel
"no strand" index with weight 0 (when the flag is clear the call is a lazy
no-op returning true). -/
theorem claim_C5 (env : BindEnv) (hsys : HairSystem)
    (hflag : hsys.flag_update_binding = true)
    (hzero : hsys.curve_data.totcurves = 0) :
    (BKE_hair_bind_follicles env hsys).2 = false ∧
    ∀ f ∈ (BKE_hair_bind_follicles env hsys).1.pattern.follicles, ∀ k : Fin 4,
      f.parent_index k = HAIR_STRAND_INDEX_NONE ∧ f.parent_weight k = 0 := by
  have h1 : ¬ (hsys.flag_update_binding = false) := by rw [hflag]; simp
  have h2 : hsys.curve_data.curves.length = 0 := hzero
  constructor
  · simp [BKE_hair_bind_follicles, if_neg h1, h2]
  · intro f hf k
    simp only [BKE_hair_bind_follicles, if_neg h1, h2, if_pos rfl] at hf
    obtain ⟨f0, _, rfl⟩ := List.mem_map.mp hf
    exact ⟨rfl, rfl⟩

/-- C5 witness: the amended statement at a concrete flagged zero-strand
system. -/
theorem claim_C5_witness :
    (hsysFlaggedNoCurves.flag_update_binding = true ∧
      hsysFlaggedNoCurves.curve_data.totcurves = 0) ∧
    ((BKE_hair_bind_follicles envTrivial hsysFlaggedNoCurves).2 = false ∧
     ∀ f ∈ (BKE_hair_bind_follicles envTrivial hsysFlaggedNoCurves).1.pattern.follicles,
       ∀ k : Fin 4,
         f.parent_index k = HAIR_STRAND_INDEX_NONE ∧ f.parent_weight k = 0) :=
  ⟨⟨rfl, rfl⟩, claim_C5 envTrivial hsysFlaggedNoCurves rfl rfl⟩

/-- C6: after a successful bind performed with at least one guide strand (the
binding-update flag set, every surface sample evaluating, the k-d tree query
returning at least one strand, and the barycentric weights of the closest
point on a triangle being convex coefficients as the spec guarantees for the
external BLI math), every follicle's four parent weights sum to 1.0 within
0.02 and are non-increasing from slot 0 to slot 3. -/
theorem claim_C6 (env : BindEnv) (hsys : HairSystem)
    (hflag : hsys.flag_update_binding = true)
    (hstr : hsys.curve_data.totcurves ≠ 0)
    (heval : ∀ s, (env.evalSample s).isSome = true)
    (hnear : ∀ loc, (env.nearest loc).length ≠ 0)
    (hbary : ∀ p a b c, convexBary (env.baryWeights a b c (env.closestTri p a b c))) :
    ∀ f ∈ (BKE_hair_bind_follicles env hsys).1.pattern.follicles,
      |f.parent_weight 0 + f.parent_weight 1 + f.parent_weight 2 + f.parent_weight 3 - 1|
          ≤ 2 / 100 ∧
      f.parent_weight 1 ≤ f.parent_weight 0 ∧
      f.parent_weight 2 ≤ f.parent_weight 1 ∧
      f.parent_weight 3 ≤ f.parent_weight 2 := by
  intro f hf
  have h1 : ¬ (hsys.flag_update_binding = false) := by rw [hflag]; simp
  have h2 : ¬ (hsys.curve_data.curves.length = 0) := hstr
  simp only [BKE_hair_bind_follicles, if_neg h1, if_neg h2] at hf
  obtain ⟨f0, _, rfl⟩ := List.mem_map.mp hf
  rcases hev : env.evalSample f0.mesh_sample with _ | loc
  · have := heval f0.mesh_sample
    rw [hev] at this
    simp at this
  · simp only [hev]
    have hres := find_closest_strand_weights env (strand_locations env hsys) f0 loc hbary
      (hnear loc)
    refine ⟨?_, hres.2.1, hres.2.2.1, hres.2.2.2⟩
    rw [hres.1]
    norm_num

/-- C6 witness: the statement at a concrete one-strand bind. -/
theorem claim_C6_witness :
    (hsysOneCurve.flag_update_binding = true ∧ hsysOneCurve.curve_data.totcurves ≠ 0) ∧
    (∀ f ∈ (BKE_hair_bind_follicles envOne hsysOneCurve).1.pattern.follicles,
      |f.parent_weight 0 + f.parent_weight 1 + f.parent_weight 2 + f.parent_weight 3 - 1|
          ≤ 2 / 100 ∧
      f.parent_weight 1 ≤ f.parent_weight 0 ∧
      f.parent_weight 2 ≤ f.parent_weight 1 ∧
      f.parent_weight 3 ≤ f.parent_weight 2) :=
  ⟨⟨rfl, by decide⟩,
   claim_C6 envOne hsysOneCurve rfl (by decide) (fun s => rfl)
     (fun loc => by simp [envOne])
     (fun p a b c => by simp [envOne, convexBary])⟩

/-- C7, counterexample. After binding a follicle whose closest point lies on a
triangle vertex (barycentric weights (1, 0, 0)), slot 1 holds a valid strand
index (1) with weight 0.0: a slot can have weight 0 without holding the
sentinel index, so "sentinel iff weight 0" fails in the if direction. -/
theorem claim_C7_cex :
    ¬ ∀ f ∈ (BKE_hair_bind_follicles envThree hsysThreeCurves).1.pattern.follicles,
        ∀ k : Fin 4,
          f.parent_index k = HAIR_STRAND_INDEX_NONE ↔ f.parent_weight k = 0 := by
  decide

/-- C7, amended: after a bind that is actually performed (flag set, samples
evaluating) with k-d tree results that are valid strand indices (never the
sentinel), every slot holding the sentinel "no strand" index has parent weight
0.0; the converse direction fails (a slot can hold a valid strand index with
weight 0, see the counterexample). -/
theorem claim_C7 (env : BindEnv) (hsys : HairSystem)
    (hflag : hsys.flag_update_binding = true)
    (heval : ∀ s, (env.evalSample s).isSome = true)
    (hidx : ∀ loc, ∀ i ∈ env.nearest loc, i ≠ HAIR_STRAND_INDEX_NONE) :
    ∀ f ∈ (BKE_hair_bind_follicles env hsys).1.pattern.follicles, ∀ k : Fin 4,
      f.parent_index k = HAIR_STRAND_INDEX_NONE → f.parent_weight k = 0 := by
  intro f hf k
  have h1 : ¬ (hsys.flag_update_binding = false) := by rw [hflag]; simp
  by_cases h2 : hsys.curve_data.curves.length = 0
  · simp only [BKE_hair_bind_follicles, if_neg h1, h2, if_pos rfl] at hf
    obtain ⟨f0, _, rfl⟩ := List.mem_map.mp hf
    exact fun _ => rfl
  · simp only [BKE_hair_bind_follicles, if_neg h1, if_neg h2] at hf
    obtain ⟨f0, _, rfl⟩ := List.mem_map.mp hf
    rcases hev : env.evalSample f0.mesh_sample with _ | loc
    · have := heval f0.mesh_sample
      rw [hev] at this
      simp at this
    · simp only [hev]
      exact find_closest_strand_sentinel env (strand_locations env hsys) f0 loc (hidx loc) k

/-- C7 witness: the amended statement at a concrete one-strand bind. -/
theorem claim_C7_witness :
    (hsysOneCurve.flag_update_binding = true) ∧
    (∀ f ∈ (BKE_hair_bind_follicles envOne hsysOneCurve).1.pattern.follicles, ∀ k : Fin 4,
      f.parent_index k = HAIR_STRAND_INDEX_NONE → f.parent_weight k = 0) :=
  ⟨rfl,
   claim_C7 envOne hsysOneCurve rfl (fun s => rfl)
     (fun loc i hi => by
       simp only [envOne] at hi
       simp only [List.mem_singleton] at hi
       subst hi
       decide)⟩

theorem applyN_update_get {α : Type} (S : ℕ) (hS : 0 < S) (v : ℕ → α) :
    ∀ (n : ℕ) (base : ℕ → α) (i : ℕ), i < n →
      applyN (fun j s => Function.update s (j * S) (v j)) n base (i * S) = v i := by
  intro n
  induction n with
  | zero => intro base i h; omega
  | succ m ih =>
    intro base i h
    by_cases hi : i = m
    · subst hi
      simp [applyN, Function.update_same]
    · have hne : i * S ≠ m * S := by
        intro hc
        exact hi (Nat.eq_of_mul_eq_mul_right hS hc)
      simp only [applyN]
      rw [Function.update_noteq hne]
      exact ih base i (by omega)

theorem applyN_update_preserve {α : Type} (idx : ℕ → ℕ) (val : ℕ → (ℕ → α) → α) :
    ∀ (n : ℕ) (r : ℕ → α) (j : ℕ), (∀ k, k < n → idx k ≠ j) →
      applyN (fun k s => Function.update s (idx k) (val k s)) n r j = r j := by
  intro n
  induction n with
  | zero => intro r j _; rfl
  | succ m ih =>
    intro r j h
    simp only [applyN]
    rw [Function.update_noteq (Ne.symm (h m (by omega)))]
    exact ih r j (fun k hk => h k (by omega))

theorem hair_subdiv_level_preserve (n subdiv d : ℕ) (hd : d < subdiv)
    (r : ℕ → Vec3) (j : ℕ) (hj : j = 0 ∨ j = (n - 1) * 2 ^ subdiv) :
    hair_subdiv_level n subdiv d r j = r j := by
  have hh : 0 < 2 ^ (subdiv - d - 1) := Nat.pos_pow_of_pos _ (by omega)
  have hstep2 : 2 ^ (subdiv - d) = 2 * 2 ^ (subdiv - d - 1) := by
    rw [← pow_succ']
    congr 1
    omega
  have hpow : (n - 1) * 2 ^ d * 2 ^ (subdiv - d) = (n - 1) * 2 ^ subdiv := by
    rw [mul_assoc, ← pow_add]
    congr 2
    omega
  have hedge : ∀ k, k < (n - 1) * 2 ^ d →
      k * 2 ^ (subdiv - d) + 2 ^ (subdiv - d - 1) ≠ j := by
    intro k hk
    have hlt : k * 2 ^ (subdiv - d) + 2 ^ (subdiv - d - 1) < (n - 1) * 2 ^ subdiv := by
      calc k * 2 ^ (subdiv - d) + 2 ^ (subdiv - d - 1)
          < k * 2 ^ (subdiv - d) + 2 ^ (subdiv - d) := by
            rw [hstep2]; omega
        _ = (k + 1) * 2 ^ (subdiv - d) := by ring
        _ ≤ (n - 1) * 2 ^ d * 2 ^ (subdiv - d) :=
            Nat.mul_le_mul_right _ (by omega)
        _ = (n - 1) * 2 ^ subdiv := hpow
    rcases hj with hj | hj <;> subst hj <;> omega
  have hmove : ∀ k, k < (n - 1) * 2 ^ d - 1 → (k + 1) * 2 ^ (subdiv - d) ≠ j := by
    intro k hk
    have hlt : (k + 1) * 2 ^ (subdiv - d) < (n - 1) * 2 ^ subdiv := by
      calc (k + 1) * 2 ^ (subdiv - d)
          < ((n - 1) * 2 ^ d) * 2 ^ (subdiv - d) := by
            refine Nat.mul_lt_mul_of_lt_of_le (by omega) (le_refl _) ?_
            rw [hstep2]; omega
        _ = (n - 1) * 2 ^ subdiv := hpow
    have hpos : 0 < (k + 1) * 2 ^ (subdiv - d) := by positivity
    rcases hj with hj | hj <;> subst hj <;> omega
  show subdiv_move_pass _ _ _ (subdiv_edge_pass _ _ _ r) j = r j
  rw [subdiv_move_pass,
    applyN_update_preserve (fun k => (k + 1) * 2 ^ (subdiv - d)) _ _ _ j hmove,
    subdiv_edge_pass,
    applyN_update_preserve (fun k => k * 2 ^ (subdiv - d) + 2 ^ (subdiv - d - 1)) _ _ _ j
      hedge]

theorem hair_subdiv_levels_preserve (n subdiv : ℕ) (r0 : ℕ → Vec3) (j : ℕ)
    (hj : j = 0 ∨ j = (n - 1) * 2 ^ subdiv) :
    ∀ m, m ≤ subdiv →
      applyN (fun d s => hair_subdiv_level n subdiv d s) m r0 j = r0 j := by
  intro m
  induction m with
  | zero => intro _; rfl
  | succ p ih =>
    intro hps
    simp only [applyN]
    rw [hair_subdiv_level_preserve n subdiv p (by omega) _ j hj]
    exact ih (by omega)

theorem Vec3.add_sub_cancel (v root : Vec3) : Vec3.add v (Vec3.sub root v) = root := by
  cases v
  cases root
  simp only [Vec3.add, Vec3.sub, Vec3.mk.injEq]
  refine ⟨by ring, by ring, by ring⟩

/-- C3, counterexample. Subdividing the 3-point curve (0,0,0), (4,4,0),
(8,0,0) to level d = 1 with root position (0,0,0) (offset 0): the "Move
original points" pass replaces the interior control point by the average of
its two neighboring midpoints, so output vertex `1 * 2^1 = 2` is (4,2,0), not
the original control point (4,4,0); the round-trip is not exact. -/
theorem claim_C3_cex :
    (1 : ℕ) < curveThree.numverts.toNat ∧
    hair_curve_subdivide curveThree vertsThree 1 Vec3.zero (fun _ => Vec3.zero) (1 * 2 ^ 1)
      = (⟨4, 2, 0⟩ : Vec3) ∧
    hair_curve_subdivide curveThree vertsThree 1 Vec3.zero (fun _ => Vec3.zero) (1 * 2 ^ 1)
      ≠ ((vertsThree.getD 1 HairFiberVertex.zero).co).add
          (Vec3.zero.sub ((vertsThree.getD 0 HairFiberVertex.zero).co)) := by
  have hsym : hair_curve_subdivide curveThree vertsThree 1 Vec3.zero (fun _ => Vec3.zero)
      (1 * 2 ^ 1)
      = Vec3.mid
          (Vec3.mid (Vec3.add ⟨0, 0, 0⟩ (Vec3.sub Vec3.zero ⟨0, 0, 0⟩))
            (Vec3.add ⟨4, 4, 0⟩ (Vec3.sub Vec3.zero ⟨0, 0, 0⟩)))
          (Vec3.mid (Vec3.add ⟨4, 4, 0⟩ (Vec3.sub Vec3.zero ⟨0, 0, 0⟩))
            (Vec3.add ⟨8, 0, 0⟩ (Vec3.sub Vec3.zero ⟨0, 0, 0⟩))) := rfl
  refine ⟨by decide, ?_, ?_⟩
  · rw [hsym]
    simp only [Vec3.mid, Vec3.add, Vec3.sub, Vec3.zero, Vec3.mk.injEq]
    norm_num
  · rw [hsym]
    simp only [Vec3.mid, Vec3.add, Vec3.sub, Vec3.zero, vertsThree, List.getD,
      HairFiberVertex.zero, Vec3.mk.injEq, ne_eq, not_and]
    intro _ h
    norm_num at h

/-- C3, amended: for every guide curve with `numverts >= 1`, every level
`d >= 0` and every root position, the subdivided output reproduces the
offset-adjusted original control points at the two endpoint samples: output
vertex 0 sits exactly at the root position and output vertex
`(numverts - 1) * 2^d` equals the last control point plus the root offset; at
`d = 0` the whole round-trip is exact. Interior control points at `d >= 1` are
replaced by two-step averaging (see the counterexample) and are generally not
reproduced. -/
theorem claim_C3 (curve : HairFiberCurve) (verts : List HairFiberVertex) (subdiv : ℕ)
    (rootpos : Vec3) (base : ℕ → Vec3) (hn : 0 < curve.numverts.toNat) :
    hair_curve_subdivide curve verts subdiv rootpos base 0 = rootpos ∧
    hair_curve_subdivide curve verts subdiv rootpos base
        ((curve.numverts.toNat - 1) * 2 ^ subdiv)
      = ((verts.getD (curve.numverts.toNat - 1) HairFiberVertex.zero).co).add
          (rootpos.sub ((verts.getD 0 HairFiberVertex.zero).co)) ∧
    (subdiv = 0 → ∀ i, i < curve.numverts.toNat →
      hair_curve_subdivide curve verts subdiv rootpos base i
        = ((verts.getD i HairFiberVertex.zero).co).add
            (rootpos.sub ((verts.getD 0 HairFiberVertex.zero).co))) := by
  have hS : 0 < 2 ^ subdiv := Nat.pos_pow_of_pos _ (by omega)
  refine ⟨?_, ?_, ?_⟩
  · simp only [hair_curve_subdivide]
    rw [hair_subdiv_levels_preserve _ _ _ 0 (Or.inl rfl) subdiv (le_refl _)]
    have hget := applyN_update_get (2 ^ subdiv) hS
      (fun i => ((verts.getD i HairFiberVertex.zero).co).add
        (rootpos.sub ((verts.getD 0 HairFiberVertex.zero).co)))
      curve.numverts.toNat base 0 hn
    simp only [Nat.zero_mul] at hget
    rw [hget]
    exact Vec3.add_sub_cancel _ _
  · simp only [hair_curve_subdivide]
    rw [hair_subdiv_levels_preserve _ _ _ _ (Or.inr rfl) subdiv (le_refl _)]
    exact applyN_update_get (2 ^ subdiv) hS
      (fun i => ((verts.getD i HairFiberVertex.zero).co).add
        (rootpos.sub ((verts.getD 0 HairFiberVertex.zero).co)))
      curve.numverts.toNat base (curve.numverts.toNat - 1) (by omega)
  · intro h0 i hi
    subst h0
    have hget := applyN_update_get (2 ^ 0) hS
      (fun i => ((verts.getD i HairFiberVertex.zero).co).add
        (rootpos.sub ((verts.getD 0 HairFiberVertex.zero).co)))
      curve.numverts.toNat base i hi
    simp only [hair_curve_subdivide]
    show applyN
        (fun i s => Function.update s (i * 2 ^ 0)
          (((verts.getD i HairFiberVertex.zero).co).add
            (rootpos.sub ((verts.getD 0 HairFiberVertex.zero).co))))
        curve.numverts.toNat base i
      = ((verts.getD i HairFiberVertex.zero).co).add
          (rootpos.sub ((verts.getD 0 HairFiberVertex.zero).co))
    conv_lhs => rw [show i = i * 2 ^ 0 from by simp]
    exact hget

/-- C3 witness: the amended statement at the concrete 3-point curve, level 1,
root position (1,1,1). -/
theorem claim_C3_witness :
    0 < curveThree.numverts.toNat ∧
    (hair_curve_subdivide curveThree vertsThree 1 (Vec3.mk 1 1 1) (fun _ => Vec3.zero) 0
        = Vec3.mk 1 1 1 ∧
     hair_curve_subdivide curveThree vertsThree 1 (Vec3.mk 1 1 1) (fun _ => Vec3.zero)
         ((curveThree.numverts.toNat - 1) * 2 ^ 1)
       = ((vertsThree.getD (curveThree.numverts.toNat - 1) HairFiberVertex.zero).co).add
           ((Vec3.mk 1 1 1).sub ((vertsThree.getD 0 HairFiberVertex.zero).co)) ∧
     ((1 : ℕ) = 0 → ∀ i, i < curveThree.numverts.toNat →
       hair_curve_subdivide curveThree vertsThree 1 (Vec3.mk 1 1 1) (fun _ => Vec3.zero) i
         = ((vertsThree.getD i HairFiberVertex.zero).co).add
             ((Vec3.mk 1 1 1).sub ((vertsThree.getD 0 HairFiberVertex.zero).co)))) :=
  ⟨by decide, claim_C3 curveThree vertsThree 1 (Vec3.mk 1 1 1) (fun _ => Vec3.zero) (by decide)⟩

/-- C1, amended theorem: `BKE_hair_export_cache_update` returns exactly the
dependency closure of the request intersected with the currently-absent
categories, recomputes exactly that set — curves, then vertices, then
follicle binding, then vertex counts, then root positions, so that later
blocks read the data updated by earlier ones — leaves every other field
untouched, and afterwards the absent categories are exactly the previously
absent ones minus the recomputed set. -/
theorem claim_C1 (cache : HairExportCache) (hsys : HairSystem) (subdiv : ℕ)
    (evalRoot : MeshSample → Vec3) (requested : HairExportFlags) :
    BKE_hair_export_cache_update cache hsys subdiv evalRoot requested
      = (export_cache_update_spec cache hsys subdiv evalRoot
          ((hair_export_cache_get_dependencies requested).inter
            (hair_export_cache_get_required_updates cache)),
         (hair_export_cache_get_dependencies requested).inter
           (hair_export_cache_get_required_updates cache)) ∧
    hair_export_cache_get_required_updates
        (BKE_hair_export_cache_update cache hsys subdiv evalRoot requested).1
      = (hair_export_cache_get_required_updates cache).minus
          ((hair_export_cache_get_dependencies requested).inter
            (hair_export_cache_get_required_updates cache)) := by
  simp only [BKE_hair_export_cache_update]
  generalize (hair_export_cache_get_dependencies requested).inter
    (hair_export_cache_get_required_updates cache) = data
  obtain ⟨b1, b2, b3, b4, b5⟩ := data
  cases b1 <;> cases b2 <;> cases b3 <;> cases b4 <;> cases b5 <;>
    exact ⟨rfl, by
      simp [hair_export_cache_get_required_updates, HairExportFlags.minus,
        export_cache_update_spec, export_compute_curves, export_compute_verts,
        export_compute_binding, export_compute_counts, export_compute_roots]⟩

/-- C1, counterexample to the claimed recomputation order. Updating
`cacheStale` (binding, counts and roots absent; curves cached) for the
binding request recomputes `{binding, counts, roots}` in both orders, but the
source's order runs the binding block (which sets `totfibercurves` to the
follicle count, 1) before the vertex-counts block, producing one per-fiber
count, while the claimed order (vertex counts first) reads the stale
`totfibercurves = 0` and produces an empty count buffer: the final states
differ, so the code does not recompute in the claimed order. -/
theorem claim_C1_cex :
    (BKE_hair_export_cache_update cacheStale hsysOneFollicle 0 (fun _ => Vec3.zero)
        flagsBinding).2
      = (export_cache_update_claim_order cacheStale hsysOneFollicle 0 (fun _ => Vec3.zero)
          flagsBinding).2 ∧
    (((BKE_hair_export_cache_update cacheStale hsysOneFollicle 0 (fun _ => Vec3.zero)
        flagsBinding).1.fiber_numverts).getD []).length = 1 ∧
    (((export_cache_update_claim_order cacheStale hsysOneFollicle 0 (fun _ => Vec3.zero)
        flagsBinding).1.fiber_numverts).getD []).length = 0 := by
  exact ⟨rfl, rfl, rfl⟩

/-- C2, evaluation of the code at the failing input: invalidating the
fiber-vertices category of a fully populated cache nulls `fiber_verts` and
`fiber_tangents`, but `fiber_normals` — although its buffer is freed — keeps
its non-null pointer value, because the source's normals branch assigns
`cache->fiber_tangents = NULL` instead of `cache->fiber_normals = NULL`: the
vertices category is not entirely absent afterwards, contradicting the
claimed invariant (and the next update reallocates a dangling pointer). -/
theorem claim_C2 :
    (BKE_hair_export_cache_invalidate cacheFull flagsVertices).fiber_verts = none ∧
    (BKE_hair_export_cache_invalidate cacheFull flagsVertices).fiber_tangents = none ∧
    (BKE_hair_export_cache_invalidate cacheFull flagsVertices).fiber_normals = some () := by
  exact ⟨rfl, rfl, rfl⟩

theorem fiber_len_loop_eq_takeWhile (cnum : ℕ → ℚ) (f : HairFollicle) :
    ∀ l : List (Fin 4),
      fiber_len_loop cnum f l
        = ((l.takeWhile fun k =>
            decide (f.parent_index k ≠ HAIR_STRAND_INDEX_NONE ∧ f.parent_weight k ≠ 0)).map
          fun k => f.parent_weight k * cnum (f.parent_index k)).sum := by
  intro l
  induction l with
  | nil => simp [fiber_len_loop]
  | cons k rest ih =>
    by_cases h : f.parent_index k = HAIR_STRAND_INDEX_NONE ∨ f.parent_weight k = 0
    · have hd : (decide (f.parent_index k ≠ HAIR_STRAND_INDEX_NONE ∧
          f.parent_weight k ≠ 0)) = false := by
        simp only [decide_eq_false_iff_not]
        tauto
      simp only [fiber_len_loop, if_pos h, List.takeWhile_cons, hd]
      simp
    · have hd : (decide (f.parent_index k ≠ HAIR_STRAND_INDEX_NONE ∧
          f.parent_weight k ≠ 0)) = true := by
        simp only [decide_eq_true_eq]
        tauto
      simp only [fiber_len_loop, if_neg h, List.takeWhile_cons, hd, if_true,
        List.map_cons, List.sum_cons]
      rw [ih]
      ring

theorem fiber_len_loop_eq_claim (cnum : ℕ → ℚ) (f : HairFollicle) :
    fiber_len_loop cnum f [0, 1, 2, 3] = fiber_len_claim cnum f := by
  rw [fiber_len_claim]
  exact fiber_len_loop_eq_takeWhile cnum f [0, 1, 2, 3]

theorem fiber_len_loop_nonneg (cnum : ℕ → ℚ) (f : HairFollicle)
    (hc : ∀ si, 0 ≤ cnum si) (hw : ∀ k, 0 ≤ f.parent_weight k) :
    ∀ l, 0 ≤ fiber_len_loop cnum f l := by
  intro l
  induction l with
  | nil => exact le_refl 0
  | cons k rest ih =>
    by_cases h : f.parent_index k = HAIR_STRAND_INDEX_NONE ∨ f.parent_weight k = 0
    · rw [fiber_len_loop, if_pos h]
    · rw [fiber_len_loop, if_neg h]
      exact add_nonneg (mul_nonneg (hc _) (hw _)) ih

theorem ctrunc_eq_floor (q : ℚ) (h : 0 ≤ q) : ctrunc q = ⌊q⌋ := by
  rw [ctrunc, if_pos h]

theorem getD_eq_default_of_le {α : Type} (l : List α) (n : ℕ) (d : α)
    (h : l.length ≤ n) : l.getD n d = d := by
  induction l generalizing n with
  | nil => simp [List.getD]
  | cons a t ih =>
    cases n with
    | zero => simp at h
    | succ m =>
      simp only [List.getD_cons_succ]
      exact ih m (by simpa using h)

theorem export_curve_numverts_nonneg (ecurves : List HairFiberCurve)
    (hc : ∀ c ∈ ecurves, 0 ≤ c.numverts) (si : ℕ) :
    0 ≤ export_curve_numverts ecurves si := by
  rw [export_curve_numverts]
  by_cases h : si < ecurves.length
  · have := hc _ (getD_mem_of_lt ecurves si HairFiberCurve.zero h)
    exact_mod_cast this
  · rw [getD_eq_default_of_le _ _ _ (le_of_not_lt h)]
    norm_num [HairFiberCurve.zero]

/-- C4: the vertex-counts block of the export cache update computes, for every
follicle, the per-fiber vertex count `floor(x + 0.5)` where `x` is the
early-stopping weighted sum of the cached subdivided parent curve vertex
counts, and the cache's total fiber vertex count is the sum of the per-fiber
counts. (The weights are non-negative after binding and the cached subdivided
counts are non-negative, so the C `(int)` truncation agrees with `floor`.) -/
theorem claim_C4 (cache : HairExportCache) (hsys : HairSystem)
    (hw : ∀ f ∈ hsys.pattern.follicles, ∀ k : Fin 4, 0 ≤ f.parent_weight k)
    (hcv : ∀ c ∈ cache.fiber_curves.getD [], 0 ≤ c.numverts) :
    (export_compute_counts cache hsys).fiber_numverts
      = some ((List.range cache.totfibercurves).map fun i =>
          ⌊fiber_len_claim (export_curve_numverts (cache.fiber_curves.getD []))
              (hsys.pattern.follicles.getD i HairFollicle.zero) + 1 / 2⌋) ∧
    (export_compute_counts cache hsys).totfiberverts
      = ((List.range cache.totfibercurves).map fun i =>
          ⌊fiber_len_claim (export_curve_numverts (cache.fiber_curves.getD []))
              (hsys.pattern.follicles.getD i HairFollicle.zero) + 1 / 2⌋).sum := by
  have hcn := export_curve_numverts_nonneg _ hcv
  have hkey : ∀ i : ℕ,
      export_fiber_numverts (cache.fiber_curves.getD [])
        (hsys.pattern.follicles.getD i HairFollicle.zero)
      = ⌊fiber_len_claim (export_curve_numverts (cache.fiber_curves.getD []))
          (hsys.pattern.follicles.getD i HairFollicle.zero) + 1 / 2⌋ := by
    intro i
    have hwf : ∀ k, 0 ≤ (hsys.pattern.follicles.getD i HairFollicle.zero).parent_weight k := by
      intro k
      by_cases h : i < hsys.pattern.follicles.length
      · exact hw _ (getD_mem_of_lt _ _ _ h) k
      · rw [getD_eq_default_of_le _ _ _ (le_of_not_lt h)]
        exact le_refl 0
    have hnn := fiber_len_loop_nonneg _ _ hcn hwf [0, 1, 2, 3]
    rw [export_fiber_numverts, ctrunc_eq_floor _ (by linarith), fiber_len_loop_eq_claim]
  constructor
  · simp only [export_compute_counts, export_counts_content]
    exact congrArg some (List.map_congr_left (fun i _ => hkey i))
  · simp only [export_compute_counts, export_counts_content]
    exact congrArg List.sum (List.map_congr_left (fun i _ => hkey i))

/-- C4 witness: the statement at the concrete one-fiber cache. -/
theorem claim_C4_witness :
    ((∀ f ∈ hsysOneFollicle.pattern.follicles, ∀ k : Fin 4, 0 ≤ f.parent_weight k) ∧
     (∀ c ∈ cacheForCounts.fiber_curves.getD [], 0 ≤ c.numverts)) ∧
    ((export_compute_counts cacheForCounts hsysOneFollicle).fiber_numverts
       = some ((List.range cacheForCounts.totfibercurves).map fun i =>
           ⌊fiber_len_claim (export_curve_numverts (cacheForCounts.fiber_curves.getD []))
               (hsysOneFollicle.pattern.follicles.getD i HairFollicle.zero) + 1 / 2⌋) ∧
     (export_compute_counts cacheForCounts hsysOneFollicle).totfiberverts
       = ((List.range cacheForCounts.totfibercurves).map fun i =>
           ⌊fiber_len_claim (export_curve_numverts (cacheForCounts.fiber_curves.getD []))
               (hsysOneFollicle.pattern.follicles.getD i HairFollicle.zero) + 1 / 2⌋).sum) :=
  ⟨⟨fun f hf k => by
      simp only [hsysOneFollicle, List.mem_singleton] at hf
      subst hf
      simp only [follicleW]
      split_ifs <;> norm_num,
    fun c hc => by
      simp only [cacheForCounts, Option.getD_some, List.mem_singleton] at hc
      subst hc
      norm_num⟩,
   claim_C4 cacheForCounts hsysOneFollicle
     (fun f hf k => by
       simp only [hsysOneFollicle, List.mem_singleton] at hf
       subst hf
       simp only [follicleW]
       split_ifs <;> norm_num)
     (fun c hc => by
       simp only [cacheForCounts, Option.getD_some, List.mem_singleton] at hc
       subst hc
       norm_num)⟩
